import Mathlib

/-!
Verification of the `tabled` repository.

The parsers (`parsers` module) and the formatter (`formatter.js`) are shallowly
embedded over lists of characters: a cell, a line and a whole text are each a
`List Char`, a grid is a list of rows of cells.  JavaScript regular-expression
tests are translated to decidable predicates on character lists, and the
floating-point threshold comparisons of `detectFormat` and of the squeeze path
are translated to the corresponding exact integer comparisons.
-/

namespace Tabled

/-- Cells, lines and whole texts are lists of characters. -/
abbrev Str := List Char

/-- A row of a grid: an ordered list of string cells. -/
abbrev Row := List Str

/-- A grid: an ordered list of rows. -/
abbrev Grid := List Row

/-- JavaScript whitespace as used by trim and by the whitespace regex class,
restricted to the whitespace characters that can occur in the texts modelled
here. -/
def isWS (c : Char) : Bool :=
  c == ' ' || c == '\t' || c == '\n' || c == '\r'

/-- JavaScript trim on a list of characters: drop whitespace from both ends. -/
def trim (s : Str) : Str :=
  ((s.dropWhile isWS).reverse.dropWhile isWS).reverse

/-- The regex dot: any character except a line terminator. -/
def dotChar (c : Char) : Bool :=
  !(c == '\n' || c == '\r')

/-- The single-quote character. -/
def squote : Char := Char.ofNat 39

/-- Splitting a text into lines after trimming it, as in the parsers. -/
def linesOf (text : Str) : List Str :=
  (trim text).splitOn '\n'

/-- The non-blank lines of a text: lines whose trim is nonempty. -/
def nonBlankLines (text : Str) : List Str :=
  (linesOf text).filter (fun l => !(trim l).isEmpty)

/-- Test of the markdown line pattern: optional surrounding whitespace, then a
pipe, then any characters, then a closing pipe.  Equivalently, the trimmed
line has length at least two, starts and ends with a pipe, and its interior
contains no line terminator. -/
def markdownTest (l : Str) : Bool :=
  match trim l with
  | [] => false
  | c :: rest =>
    c == '|' && !rest.isEmpty && rest.getLast? == some '|' && rest.dropLast.all dotChar

/-- Test of the ASCII border pattern: a plus sign, then one or more characters
that are each a hyphen or a plus sign, then a closing plus sign.  Applied to
the raw (untrimmed) line. -/
def sqlBorderTest (l : Str) : Bool :=
  match l with
  | [] => false
  | c :: rest =>
    c == '+' && decide (2 ≤ rest.length) && rest.getLast? == some '+' &&
      rest.all (fun d => d == '+' || d == '-')

/-- Test of the SQL data line pattern: a pipe, any characters, a closing pipe,
with no surrounding whitespace allowed. -/
def sqlDataTest (l : Str) : Bool :=
  match l with
  | [] => false
  | c :: rest =>
    c == '|' && !rest.isEmpty && rest.getLast? == some '|' && rest.dropLast.all dotChar

/-- The closed set of format tags produced by detection. -/
inductive FormatTag where
  | markdown
  | csv
  | tsv
  | sql
  | unknown
deriving DecidableEq

/-- Format detection.  The markdown check fires when more than half of the
non-blank lines look pipe-delimited; the sql check fires on a border line or
on a data line together with a pipe anywhere in the text; the tsv check fires
when more than seventy percent of the non-blank lines contain a tab. -/
def detectFormat (text : Str) : FormatTag :=
  let lines := nonBlankLines text
  if lines.length = 0 then .unknown
  else if lines.length < 2 * (lines.filter markdownTest).length then .markdown
  else if lines.any sqlBorderTest || (lines.any sqlDataTest && text.any (· == '|')) then .sql
  else if 7 * lines.length < 10 * (lines.filter (fun l => l.any (· == '\t'))).length then .tsv
  else .csv

/-- Dropping the first and last pieces of a split on pipes, as the markdown
and sql parsers do after splitting a line on the pipe character. -/
def splitCells (l : Str) : List Str :=
  ((l.splitOn '|').drop 1).dropLast

/-- The separator-row test of the markdown parser: the line must consist of a
pipe, one or more characters that are each whitespace, a hyphen or a pipe,
and a closing pipe, and must contain at least one hyphen. -/
def mdSeparatorTest (l : Str) : Bool :=
  (match l with
   | [] => false
   | c :: rest =>
     c == '|' && decide (2 ≤ rest.length) && rest.getLast? == some '|' &&
       rest.dropLast.all (fun d => isWS d || d == '-' || d == '|'))
  && l.any (· == '-')

/-- Markdown parsing: keep trimmed lines that start and end with a pipe, skip
separator rows, split the rest on pipes, trim the cells and drop rows that
yield no cells. -/
def parseMarkdown (text : Str) : Grid :=
  let lines := (((trim text).splitOn '\n').map trim).filter
    (fun l => l.head? == some '|' && l.getLast? == some '|')
  (lines.filter (fun l => !mdSeparatorTest l)).filterMap
    (fun l =>
      let cells := (splitCells l).map trim
      if cells.isEmpty then none else some cells)

/-- Is a character one of the two quote characters stripped by the CSV
parser. -/
def isQuote (c : Char) : Bool :=
  c == '"' || c == squote

/-- Strip one leading quote character when present. -/
def stripLeadQuote (s : Str) : Str :=
  match s with
  | [] => []
  | c :: rest => if isQuote c then rest else s

/-- Strip one trailing quote character when present. -/
def stripTrailQuote (s : Str) : Str :=
  match s.getLast? with
  | none => s
  | some c => if isQuote c then s.dropLast else s

/-- The global quote-stripping replacement of the CSV parser: the anchored
alternation can match only at the very first and at the very last character,
so it removes one leading quote when present and then one trailing quote of
the remainder when present, independently of each other. -/
def stripQuotes (s : Str) : Str :=
  stripTrailQuote (stripLeadQuote s)

/-- CSV parsing: split each non-blank line on commas, trim each cell, then
strip quotes. -/
def parseCSV (text : Str) : Grid :=
  (nonBlankLines text).map
    (fun l => (l.splitOn ',').map (fun cell => stripQuotes (trim cell)))

/-- TSV parsing: split each non-blank line on tabs and trim each cell. -/
def parseTSV (text : Str) : Grid :=
  (nonBlankLines text).map (fun l => (l.splitOn '\t').map trim)

/-- SQL dump parsing: iterate all trimmed lines, skip border lines, and parse
lines that start and end with a pipe, keeping rows with at least one cell. -/
def parseSQL (text : Str) : Grid :=
  (((trim text).splitOn '\n').map trim).filterMap
    (fun l =>
      if sqlBorderTest l then none
      else if l.head? == some '|' && l.getLast? == some '|' then
        let cells := (splitCells l).map trim
        if cells.isEmpty then none else some cells
      else none)

/-- The main parse entry point: blank input yields an empty grid, otherwise
the detected format's parser runs, with CSV as the default fallback. -/
def parse (text : Str) : Grid :=
  if (trim text).isEmpty then []
  else
    match detectFormat text with
    | .markdown => parseMarkdown text
    | .csv => parseCSV text
    | .tsv => parseTSV text
    | .sql => parseSQL text
    | .unknown => parseCSV text

/-! ### The formatter -/

def MAX_TABLE_WIDTH : Nat := 100

def MIN_COLUMN_WIDTH : Nat := 3

def MAX_COLUMNS_BEFORE_SPLIT : Nat := 10

/-- Reading a cell of a row, with a missing cell read as the empty string. -/
def cellAt (row : Row) (j : Nat) : Str :=
  row.getD j []

/-- The maximum row length of a grid. -/
def maxRowLen (data : Grid) : Nat :=
  data.foldl (fun a r => max a r.length) 0

/-- The width of one column: the maximum cell length in that column over all
rows, a missing cell counting as length zero. -/
def colWidthAt (data : Grid) (j : Nat) : Nat :=
  data.foldl (fun a r => max a (cellAt r j).length) 0

/-- The per-column width vector of a grid. -/
def calculateColumnWidths (data : Grid) : List Nat :=
  (List.range (maxRowLen data)).map (colWidthAt data)

/-- Total rendered width: content plus two padding spaces per column plus one
pipe per column plus the trailing pipe. -/
def calculateTableWidth (colWidths : List Nat) : Nat :=
  colWidths.sum + 3 * colWidths.length + 1

/-- The indices of the columns that have at least one non-whitespace value. -/
def identifyNonEmptyColumns (data : Grid) : List Nat :=
  (List.range (maxRowLen data)).filter
    (fun j => data.any (fun r => !(trim (cellAt r j)).isEmpty))

/-- The scan of the first column against the set of values already seen,
ignoring rows whose trimmed first cell is empty. -/
def hasUniqueFirstColumnAux : Grid → List Str → Bool
  | [], _ => true
  | r :: rest, seen =>
    let v := trim (cellAt r 0)
    if v.isEmpty then hasUniqueFirstColumnAux rest seen
    else if seen.contains v then false
    else hasUniqueFirstColumnAux rest (v :: seen)

/-- Whether the first column is a key column: no repeated non-empty trimmed
value.  An empty grid is reported as not having a key column. -/
def hasUniqueFirstColumn (data : Grid) : Bool :=
  if data.isEmpty then false else hasUniqueFirstColumnAux data []

/-- Render one cell: a space, the value padded on the right to the column
width, and a space. -/
def padCell (value : Str) (width : Nat) : Str :=
  ' ' :: (value ++ List.replicate (width - value.length) ' ') ++ [' ']

/-- Render the cells of a row against the width vector, walking the row and
the widths in parallel; a cell beyond the width vector pads to width zero, as
an undefined width does in the source. -/
def formatCells : Row → List Nat → List Str
  | [], _ => []
  | c :: cs, [] => padCell c 0 :: formatCells cs []
  | c :: cs, w :: ws => padCell c w :: formatCells cs ws

/-- Render a full row: pipes around and between the padded cells. -/
def formatRow (row : Row) (colWidths : List Nat) : Str :=
  '|' :: List.intercalate ['|'] (formatCells row colWidths) ++ ['|']

/-- Render the separator row: per column, hyphens spanning the width plus the
two padding spaces, with the same pipe structure. -/
def formatSeparator (colWidths : List Nat) : Str :=
  '|' :: List.intercalate ['|'] (colWidths.map (fun w => List.replicate (w + 2) '-')) ++ ['|']

/-- Project a grid onto a list of column indices, missing cells becoming
empty strings. -/
def subGrid (data : Grid) (colIndices : List Nat) : Grid :=
  data.map (fun r => colIndices.map (cellAt r))

/-- The list of output lines of the single-table renderer: header row,
separator row, then the data rows, with widths computed over the projected
sub-grid only. -/
def formatSingleTableLines (data : Grid) (colIndices : List Nat) : List Str :=
  let tableData := subGrid data colIndices
  let colWidths := calculateColumnWidths tableData
  match tableData with
  | [] => []
  | hd :: tl =>
    formatRow hd colWidths :: formatSeparator colWidths ::
      tl.map (fun r => formatRow r colWidths)

/-- The single-table renderer: its lines joined by newlines. -/
def formatSingleTable (data : Grid) (colIndices : List Nat) : Str :=
  List.intercalate ['\n'] (formatSingleTableLines data colIndices)

/-- The loop of the column grouping algorithm, processing the column indices
from one upward with the accumulated closed groups and the open group. -/
def splitGo (colWidths : List Nat) (maxWidth : Nat) (repeatFirstCol : Bool) :
    List (List Nat) → List Nat → List Nat → List (List Nat)
  | groups, current, [] =>
    if current.isEmpty then groups else groups ++ [current]
  | groups, current, i :: rest =>
    let testGroup :=
      if repeatFirstCol && decide (1 < current.length) then 0 :: current.tail ++ [i]
      else current ++ [i]
    let testWidth := calculateTableWidth (testGroup.map (fun idx => colWidths.getD idx 0))
    if testWidth ≤ maxWidth then
      splitGo colWidths maxWidth repeatFirstCol groups (current ++ [i]) rest
    else
      splitGo colWidths maxWidth repeatFirstCol
        (if current.isEmpty then groups else groups ++ [current])
        (if repeatFirstCol then [0, i] else [i]) rest

/-- Split the column indices into groups fitting the width budget.  Column
zero always opens the first group; when the first column is repeated, every
new group is seeded with it. -/
def splitColumnsIntoGroups (colWidths : List Nat) (maxWidth : Nat)
    (repeatFirstCol : Bool) : List (List Nat) :=
  if colWidths.isEmpty then []
  else splitGo colWidths maxWidth repeatFirstCol [] [0] (List.range' 1 (colWidths.length - 1))

/-- Pad every row of a grid with empty cells up to the maximum row length. -/
def normalizeGrid (data : Grid) : Grid :=
  let numCols := maxRowLen data
  data.map (fun row => row ++ List.replicate (numCols - row.length) ([] : Str))

/-- The pairs of adjusted width and column index fed to the trim step, in the
original column order. -/
def indexedWidths (ws : List Nat) : List (Nat × Nat) :=
  ws.enum.map (fun p => (p.2, p.1))

/-- The trim step of the squeeze path: walk the width/index pairs sorted by
descending width and remove from each column the lesser of the remaining
excess and the column's slack above the minimum width. -/
def trimExcess : List (Nat × Nat) → List Nat → Nat → List Nat
  | [], adj, _ => adj
  | (w, i) :: rest, adj, excess =>
    let canRemove := min excess (w - MIN_COLUMN_WIDTH)
    trimExcess rest (adj.set i (adj.getD i 0 - canRemove)) (excess - canRemove)

/-- The adjusted width vector of the squeeze path: scale every width down
proportionally with a floor at the minimum width, then, when the result still
exceeds the available width, trim from the largest columns first. -/
def adjustedWidthsOf (colWidths : List Nat) (availableWidth : Nat) : List Nat :=
  let totalContentWidth := colWidths.sum
  let adjusted :=
    colWidths.map (fun w => max (w * availableWidth / totalContentWidth) MIN_COLUMN_WIDTH)
  if availableWidth < adjusted.sum then
    trimExcess ((indexedWidths adjusted).mergeSort (fun a b => decide (b.1 ≤ a.1)))
      adjusted (adjusted.sum - availableWidth)
  else adjusted

/-- Truncate the cells of a row to the adjusted widths, walking the row and
the widths in parallel; a cell beyond the width vector is left unchanged, as
the comparison against an undefined width fails in the source. -/
def truncateCells : Row → List Nat → Row
  | [], _ => []
  | c :: cs, [] => c :: truncateCells cs []
  | c :: cs, w :: ws => (if w < c.length then c.take w else c) :: truncateCells cs ws

/-- The main format entry point.  An empty grid or a grid with only vacuous
columns yields the empty string; a fitting grid renders as one table; a
too-wide grid with few, wide columns is squeezed into one truncated table
when the width budget leaves room; otherwise the columns are split into
groups rendered as separate tables joined by blank lines. -/
def format (data : Grid) (maxWidth : Nat) : Str :=
  if data.isEmpty then []
  else
    let normalizedData := normalizeGrid data
    let nonEmptyColIndices := identifyNonEmptyColumns normalizedData
    if nonEmptyColIndices.isEmpty then []
    else
      let filteredData := subGrid normalizedData nonEmptyColIndices
      let colWidths := calculateColumnWidths filteredData
      let totalWidth := calculateTableWidth colWidths
      let filteredNumCols := (filteredData.headD []).length
      if totalWidth ≤ maxWidth then
        formatSingleTable filteredData (List.range filteredNumCols)
      else if (filteredNumCols ≤ MAX_COLUMNS_BEFORE_SPLIT ∧
               2 * MIN_COLUMN_WIDTH * colWidths.length ≤ colWidths.sum) ∧
              filteredNumCols * MIN_COLUMN_WIDTH < maxWidth - (3 * filteredNumCols + 1) then
        let availableWidth := maxWidth - (3 * filteredNumCols + 1)
        let adj := adjustedWidthsOf colWidths availableWidth
        formatSingleTable (filteredData.map (fun row => truncateCells row adj))
          (List.range filteredNumCols)
      else
        let groups := splitColumnsIntoGroups colWidths maxWidth (hasUniqueFirstColumn filteredData)
        List.intercalate ['\n', '\n'] (groups.map (fun g => formatSingleTable filteredData g))

end Tabled

namespace Tabled

/-- The filtered grid the formatter operates on: the normalized grid
projected onto its non-empty columns. -/
def filteredGrid (data : Grid) : Grid :=
  subGrid (normalizeGrid data) (identifyNonEmptyColumns (normalizeGrid data))

/-- The width vector of the filtered grid. -/
def filteredWidths (data : Grid) : List Nat :=
  calculateColumnWidths (filteredGrid data)

/-- The filtered column count: the length of the first filtered row. -/
def filteredNumColsOf (data : Grid) : Nat :=
  ((filteredGrid data).headD []).length

/-! ### Helper lemmas: intercalate -/

theorem intercalate_cons₂ (s x : Str) (ls : List Str) (h : ls ≠ []) :
    List.intercalate s (x :: ls) = x ++ s ++ List.intercalate s ls := by
  cases ls with
  | nil => exact absurd rfl h
  | cons y t => simp [List.intercalate, List.intersperse_cons_cons, List.append_assoc]

theorem intercalate_single (s x : Str) : List.intercalate s [x] = x := by
  simp [List.intercalate]

theorem intercalate_concat (s x : Str) (ls : List Str) (h : ls ≠ []) :
    List.intercalate s (ls ++ [x]) = List.intercalate s ls ++ s ++ x := by
  induction ls with
  | nil => exact absurd rfl h
  | cons y t ih =>
    cases t with
    | nil => simp [intercalate_single, intercalate_cons₂]
    | cons z t2 =>
      rw [List.cons_append, intercalate_cons₂ s y ((z :: t2) ++ [x]) (by simp),
        intercalate_cons₂ s y (z :: t2) (by simp), ih (by simp)]
      simp [List.append_assoc]

theorem mem_intercalate (s : Char) (ls : List Str) (c : Char)
    (h : c ∈ List.intercalate [s] ls) : c = s ∨ ∃ l ∈ ls, c ∈ l := by
  induction ls with
  | nil => simp [List.intercalate] at h
  | cons y t ih =>
    cases t with
    | nil => rw [intercalate_single] at h; exact Or.inr ⟨y, by simp, h⟩
    | cons z t2 =>
      rw [intercalate_cons₂ _ _ _ (by simp)] at h
      rcases List.mem_append.mp h with h2 | h2
      · rcases List.mem_append.mp h2 with h3 | h3
        · exact Or.inr ⟨y, by simp, h3⟩
        · exact Or.inl (List.eq_of_mem_singleton h3)
      · rcases ih h2 with h3 | ⟨l, hl, hcl⟩
        · exact Or.inl h3
        · exact Or.inr ⟨l, by simp [hl], hcl⟩

theorem mem_intercalate_of_mem (s : Str) (ls : List Str) (l : Str) (c : Char)
    (hl : l ∈ ls) (hc : c ∈ l) : c ∈ List.intercalate s ls := by
  induction ls with
  | nil => simp at hl
  | cons y t ih =>
    cases t with
    | nil => simp at hl; rw [intercalate_single]; exact hl ▸ hc
    | cons z t2 =>
      rw [intercalate_cons₂ _ _ _ (by simp)]
      rcases List.mem_cons.mp hl with h | h
      · exact List.mem_append.mpr (Or.inl (List.mem_append.mpr (Or.inl (h ▸ hc))))
      · exact List.mem_append.mpr (Or.inr (ih h))

theorem length_intercalate_char (ch : Char) (ls : List Str) (h : ls ≠ []) :
    (List.intercalate [ch] ls).length + 1 = (ls.map List.length).sum + ls.length := by
  induction ls with
  | nil => exact absurd rfl h
  | cons y t ih =>
    cases t with
    | nil => simp [intercalate_single]
    | cons z t2 =>
      have h2 := ih (by simp)
      rw [intercalate_cons₂ _ _ _ (by simp)]
      simp only [List.length_append, List.map_cons, List.sum_cons, List.length_cons,
        List.length_nil] at h2 ⊢
      omega

theorem head?_intercalate (s x : Str) (ls : List Str) (hx : x ≠ []) :
    (List.intercalate s (x :: ls)).head? = x.head? := by
  cases ls with
  | nil => rw [intercalate_single]
  | cons y t =>
    rw [intercalate_cons₂ _ _ _ (by simp), List.append_assoc, List.head?_append]
    cases x with
    | nil => exact absurd rfl hx
    | cons a l2 => simp

theorem getLast?_intercalate (s x : Str) (ls : List Str) (hx : x ≠ []) :
    (List.intercalate s (ls ++ [x])).getLast? = x.getLast? := by
  cases ls with
  | nil => simp [intercalate_single]
  | cons y t =>
    rw [intercalate_concat _ _ _ (by simp), List.append_assoc, List.getLast?_append]
    cases hxl : x.getLast? with
    | none => exact absurd (List.getLast?_eq_none_iff.mp hxl) hx
    | some c => simp [List.getLast?_append, hxl]

end Tabled

namespace Tabled

/-! ### Helper lemmas: trim -/

theorem trim_nil : trim [] = [] := rfl

theorem dropWhile_replicate_space (a : Nat) (l : Str) :
    List.dropWhile isWS (List.replicate a ' ' ++ l) = List.dropWhile isWS l := by
  induction a with
  | zero => simp
  | succ n ih => simp [List.replicate_succ, List.dropWhile_cons, isWS, ih]

theorem trim_append_left_spaces (a : Nat) (l : Str) :
    trim (List.replicate a ' ' ++ l) = trim l := by
  simp [trim, dropWhile_replicate_space]

end Tabled

namespace Tabled

theorem trim_append_right_spaces (b : Nat) (l : Str) :
    trim (l ++ List.replicate b ' ') = trim l := by
  unfold trim
  rw [List.dropWhile_append]
  by_cases h : (List.dropWhile isWS l).isEmpty
  · have hrep : List.dropWhile isWS (List.replicate b ' ') = [] := by
      rw [List.dropWhile_eq_nil_iff]
      intro x hx
      rw [List.eq_of_mem_replicate hx]
      rfl
    simp [h, hrep, List.isEmpty_iff.mp h]
  · rw [if_neg h, List.reverse_append, List.reverse_replicate,
      dropWhile_replicate_space]

theorem trim_eq_self (l : Str) (a b : Char) (ha : l.head? = some a)
    (hwa : isWS a = false) (hb : l.getLast? = some b) (hwb : isWS b = false) :
    trim l = l := by
  have h1 : List.dropWhile isWS l = l := by
    cases l with
    | nil => rfl
    | cons c t =>
      have : c = a := by simpa using ha
      rw [List.dropWhile_cons, this, hwa]
      simp
  have h2 : List.dropWhile isWS l.reverse = l.reverse := by
    cases hr : l.reverse with
    | nil => rfl
    | cons c t =>
      have : l.reverse.head? = some b := by rw [← List.getLast?_eq_head?_reverse]; exact hb
      have hc : c = b := by rw [hr] at this; simpa using this
      rw [List.dropWhile_cons, hc, hwb]
      simp
  rw [trim, h1, h2, List.reverse_reverse]

theorem trim_eq_nil_iff (l : Str) : trim l = [] ↔ ∀ c ∈ l, isWS c = true := by
  constructor
  · intro h c hc
    have h2 : List.dropWhile isWS ((List.dropWhile isWS l).reverse) = [] := by
      have := congrArg List.reverse h
      simpa [trim] using this
    have h3 : ∀ x ∈ (List.dropWhile isWS l).reverse, isWS x = true :=
      List.dropWhile_eq_nil_iff.mp h2
    have h4 : ∀ x ∈ List.dropWhile isWS l, isWS x = true := by
      intro x hx
      exact h3 x (List.mem_reverse.mpr hx)
    have h5 : l = List.takeWhile isWS l ++ List.dropWhile isWS l :=
      (List.takeWhile_append_dropWhile isWS l).symm
    rw [h5] at hc
    rcases List.mem_append.mp hc with h6 | h6
    · exact List.mem_takeWhile_imp h6
    · exact h4 c h6
  · intro h
    have h1 : List.dropWhile isWS l = [] := List.dropWhile_eq_nil_iff.mpr h
    simp [trim, h1]

theorem trim_ne_nil_of_mem (l : Str) (c : Char) (hc : c ∈ l) (hw : isWS c = false) :
    trim l ≠ [] := by
  intro h
  have := (trim_eq_nil_iff l).mp h c hc
  rw [this] at hw
  exact absurd hw (by decide)

theorem trim_pad (c : Str) (w : Nat) (hc : trim c = c) : trim (padCell c w) = c := by
  have h1 : padCell c w = List.replicate 1 ' ' ++ (c ++ List.replicate (w - c.length + 1) ' ') := by
    simp [padCell, List.replicate_succ', List.append_assoc]
  rw [h1, trim_append_left_spaces, trim_append_right_spaces, hc]

end Tabled

namespace Tabled

/-! ### Helper lemmas: widths and folds -/

theorem le_foldl_max (f : Row → Nat) (l : Grid) (a : Nat) :
    a ≤ l.foldl (fun x r => max x (f r)) a := by
  induction l generalizing a with
  | nil => exact Nat.le_refl a
  | cons r t ih => exact Nat.le_trans (Nat.le_max_left a (f r)) (ih (max a (f r)))

theorem mem_le_foldl_max (f : Row → Nat) (l : Grid) (a : Nat) (r : Row) (hr : r ∈ l) :
    f r ≤ l.foldl (fun x r => max x (f r)) a := by
  induction l generalizing a with
  | nil => simp at hr
  | cons s t ih =>
    rcases List.mem_cons.mp hr with h | h
    · subst h
      exact Nat.le_trans (Nat.le_max_right a (f r)) (le_foldl_max f t (max a (f r)))
    · exact ih (max a (f s)) h

theorem foldl_max_le (f : Row → Nat) (l : Grid) (a k : Nat) (ha : a ≤ k)
    (h : ∀ r ∈ l, f r ≤ k) : l.foldl (fun x r => max x (f r)) a ≤ k := by
  induction l generalizing a with
  | nil => exact ha
  | cons s t ih =>
    exact ih (max a (f s)) (Nat.max_le.mpr ⟨ha, h s (by simp)⟩)
      (fun r hr => h r (by simp [hr]))

theorem maxRowLen_le (data : Grid) (k : Nat) (h : ∀ r ∈ data, r.length ≤ k) :
    maxRowLen data ≤ k := foldl_max_le _ data 0 k (Nat.zero_le k) h

theorem le_maxRowLen (data : Grid) (r : Row) (hr : r ∈ data) :
    r.length ≤ maxRowLen data := mem_le_foldl_max _ data 0 r hr

theorem maxRowLen_eq (data : Grid) (n : Nat) (hne : data ≠ [])
    (h : ∀ r ∈ data, r.length = n) : maxRowLen data = n := by
  apply Nat.le_antisymm
  · exact maxRowLen_le data n (fun r hr => Nat.le_of_eq (h r hr))
  · rcases data with _ | ⟨r, t⟩
    · exact absurd rfl hne
    · exact (h r (by simp)) ▸ le_maxRowLen _ r (by simp)

theorem cellAt_length_le_colWidthAt (data : Grid) (r : Row) (j : Nat) (hr : r ∈ data) :
    (cellAt r j).length ≤ colWidthAt data j :=
  mem_le_foldl_max (fun r => (cellAt r j).length) data 0 r hr

theorem calculateColumnWidths_length (data : Grid) :
    (calculateColumnWidths data).length = maxRowLen data := by
  simp [calculateColumnWidths]

theorem calculateColumnWidths_getD (data : Grid) (j : Nat) (h : j < maxRowLen data) :
    (calculateColumnWidths data).getD j 0 = colWidthAt data j := by
  rw [calculateColumnWidths, List.getD_eq_getElem _ _ (by simpa using h),
    List.getElem_map, List.getElem_range]

theorem cellAt_eq_nil (r : Row) (j : Nat) (h : r.length ≤ j) : cellAt r j = [] :=
  List.getD_eq_default r [] h

theorem cellAt_length_le_widths (data : Grid) (r : Row) (j : Nat) (hr : r ∈ data) :
    (cellAt r j).length ≤ (calculateColumnWidths data).getD j 0 := by
  by_cases h : j < maxRowLen data
  · rw [calculateColumnWidths_getD data j h]
    exact cellAt_length_le_colWidthAt data r j hr
  · have hj : r.length ≤ j :=
      Nat.le_trans (le_maxRowLen data r hr) (Nat.le_of_not_lt h)
    simp [cellAt_eq_nil r j hj]

theorem map_getD_range (W : List Nat) :
    (List.range W.length).map (fun i => W.getD i 0) = W := by
  apply List.ext_getElem
  · simp
  · intro n h1 h2
    rw [List.getElem_map, List.getElem_range, List.getD_eq_getElem _ _ h2]

theorem map_cellAt_range (r : Row) (n : Nat) (h : r.length = n) :
    (List.range n).map (cellAt r) = r := by
  subst h
  apply List.ext_getElem
  · simp
  · intro i h1 h2
    rw [List.getElem_map, List.getElem_range]
    exact List.getD_eq_getElem r [] h2

theorem subGrid_range (d : Grid) (n : Nat) (h : ∀ r ∈ d, r.length = n) :
    subGrid d (List.range n) = d := by
  rw [subGrid]
  conv_rhs => rw [← List.map_id d]
  apply List.map_congr_left
  intro r hr
  simpa using map_cellAt_range r n (h r hr)

/-! ### Helper lemmas: rendered lengths -/

theorem padCell_length (c : Str) (w : Nat) (h : c.length ≤ w) :
    (padCell c w).length = w + 2 := by
  simp [padCell]
  omega

theorem sum_map_add_const (l : List Nat) (c : Nat) :
    (l.map (fun w => w + c)).sum = l.sum + c * l.length := by
  induction l with
  | nil => simp
  | cons x t ih => simp [ih]; ring

theorem formatCells_map_length (row : Row) (ws : List Nat)
    (hlen : row.length = ws.length)
    (hb : ∀ j, (cellAt row j).length ≤ ws.getD j 0) :
    (formatCells row ws).map List.length = ws.map (fun w => w + 2) := by
  induction row generalizing ws with
  | nil =>
    cases ws with
    | nil => rfl
    | cons w t => simp at hlen
  | cons c cs ih =>
    cases ws with
    | nil => simp at hlen
    | cons w t =>
      have h0 : c.length ≤ w := by have := hb 0; simpa [cellAt] using this
      have ht : ∀ j, (cellAt cs j).length ≤ t.getD j 0 := by
        intro j
        have := hb (j + 1)
        simpa [cellAt] using this
      simp only [formatCells, List.map_cons]
      rw [padCell_length c w h0, ih t (by simpa using hlen) ht]

theorem formatCells_length (row : Row) (ws : List Nat) :
    (formatCells row ws).length = row.length := by
  induction row generalizing ws with
  | nil => rfl
  | cons c cs ih =>
    cases ws with
    | nil => simp [formatCells, ih]
    | cons w t => simp [formatCells, ih]

theorem formatRow_length (row : Row) (ws : List Nat)
    (hlen : row.length = ws.length) (hne : ws ≠ [])
    (hb : ∀ j, (cellAt row j).length ≤ ws.getD j 0) :
    (formatRow row ws).length = calculateTableWidth ws := by
  have hcells : (formatCells row ws).map List.length = ws.map (fun w => w + 2) :=
    formatCells_map_length row ws hlen hb
  have hcne : formatCells row ws ≠ [] := by
    intro h
    have := formatCells_length row ws
    rw [h] at this
    simp at this
    rw [← this] at hlen
    exact hne (List.eq_nil_of_length_eq_zero hlen.symm)
  have hint := length_intercalate_char '|' (formatCells row ws) hcne
  rw [hcells] at hint
  have hlen2 : (formatCells row ws).length = ws.length := by
    rw [formatCells_length row ws, hlen]
  rw [formatRow, calculateTableWidth]
  simp only [List.length_cons, List.length_append, List.length_singleton, List.length_nil]
  rw [sum_map_add_const] at hint
  omega

theorem formatSeparator_length (ws : List Nat) (hne : ws ≠ []) :
    (formatSeparator ws).length = calculateTableWidth ws := by
  have hcne : ws.map (fun w => List.replicate (w + 2) '-') ≠ [] := by
    simpa using hne
  have hint := length_intercalate_char '|' _ hcne
  rw [List.map_map] at hint
  have : (List.length ∘ fun w => List.replicate (w + 2) '-') = fun w => w + 2 := by
    funext w
    simp
  rw [this, sum_map_add_const] at hint
  simp only [List.length_map] at hint
  rw [formatSeparator, calculateTableWidth]
  simp only [List.length_cons, List.length_append, List.length_singleton, List.length_nil,
    List.length_map]
  omega

end Tabled

namespace Tabled

theorem subGrid_row_length (data : Grid) (colIndices : List Nat) (r : Row)
    (hr : r ∈ subGrid data colIndices) : r.length = colIndices.length := by
  rcases List.mem_map.mp hr with ⟨s, _, hs⟩
  rw [← hs, List.length_map]

theorem subGrid_ne_nil (data : Grid) (colIndices : List Nat) (hd : data ≠ []) :
    subGrid data colIndices ≠ [] := by
  simpa [subGrid] using hd

theorem maxRowLen_subGrid (data : Grid) (colIndices : List Nat) (hd : data ≠ []) :
    maxRowLen (subGrid data colIndices) = colIndices.length :=
  maxRowLen_eq _ _ (subGrid_ne_nil data colIndices hd)
    (fun r hr => subGrid_row_length data colIndices r hr)

theorem formatSingleTableLines_length_eq (data : Grid) (colIndices : List Nat)
    (hd : data ≠ []) (hi : colIndices ≠ []) :
    ∀ l ∈ formatSingleTableLines data colIndices,
      l.length = (calculateColumnWidths (subGrid data colIndices)).sum +
        3 * colIndices.length + 1 := by
  have hml : maxRowLen (subGrid data colIndices) = colIndices.length :=
    maxRowLen_subGrid data colIndices hd
  have hWlen : (calculateColumnWidths (subGrid data colIndices)).length = colIndices.length := by
    rw [calculateColumnWidths_length, hml]
  have hWne : calculateColumnWidths (subGrid data colIndices) ≠ [] := by
    intro h
    rw [h] at hWlen
    exact hi (List.eq_nil_of_length_eq_zero hWlen.symm)
  have hctw : calculateTableWidth (calculateColumnWidths (subGrid data colIndices)) =
      (calculateColumnWidths (subGrid data colIndices)).sum + 3 * colIndices.length + 1 := by
    rw [calculateTableWidth, hWlen]
  cases hT : subGrid data colIndices with
  | nil => exact absurd hT (subGrid_ne_nil data colIndices hd)
  | cons hd0 tl =>
    have hrow : ∀ r ∈ subGrid data colIndices,
        (formatRow r (calculateColumnWidths (subGrid data colIndices))).length =
          (calculateColumnWidths (subGrid data colIndices)).sum + 3 * colIndices.length + 1 := by
      intro r hr
      rw [← hctw]
      apply formatRow_length
      · rw [subGrid_row_length data colIndices r hr, hWlen]
      · exact hWne
      · intro j
        exact cellAt_length_le_widths _ r j hr
    have hlines : formatSingleTableLines data colIndices =
        formatRow hd0 (calculateColumnWidths (subGrid data colIndices)) ::
          formatSeparator (calculateColumnWidths (subGrid data colIndices)) ::
          tl.map (fun r => formatRow r (calculateColumnWidths (subGrid data colIndices))) := by
      rw [formatSingleTableLines]
      simp only [hT]
    rw [hlines, hT]
    rw [hT] at hrow hctw hWne
    intro l hl
    rcases List.mem_cons.mp hl with h | h
    · rw [h]
      exact hrow hd0 (List.mem_cons_self hd0 tl)
    rcases List.mem_cons.mp h with h2 | h2
    · rw [h2, ← hctw]
      exact formatSeparator_length _ hWne
    · rcases List.mem_map.mp h2 with ⟨r, hrmem, hreq⟩
      rw [← hreq]
      exact hrow r (List.mem_cons_of_mem hd0 hrmem)

/-- C10: every line of the single-table renderer — header row, separator row
and each data row — has the same character length, namely the sum of the
sub-grid's computed column widths plus three times the number of selected
columns plus one. -/
theorem c10_formatSingleTable_rectangular (data : Grid) (colIndices : List Nat)
    (hd : data ≠ []) (hi : colIndices ≠ []) :
    ∀ l ∈ formatSingleTableLines data colIndices,
      l.length = (calculateColumnWidths (subGrid data colIndices)).sum +
        3 * colIndices.length + 1 :=
  formatSingleTableLines_length_eq data colIndices hd hi

/-- Witness for C10 at a concrete grid and column selection. -/
theorem c10_witness :
    (formatRow [['a']] (calculateColumnWidths (subGrid [[['a']], [['b', 'c']]] [0]))).length =
      (calculateColumnWidths (subGrid [[['a']], [['b', 'c']]] [0])).sum +
        3 * ([0] : List Nat).length + 1 :=
  c10_formatSingleTable_rectangular [[['a']], [['b', 'c']]] [0] (by decide) (by decide)
    _ (by decide)

end Tabled

namespace Tabled

/-! ### Helper lemmas: splitOn and trim ends -/

theorem splitOn_no_sep (l : Str) (sep : Char) (h : ∀ c ∈ l, c ≠ sep) :
    l.splitOn sep = [l] := by
  rw [List.splitOn]
  apply List.splitOnP_eq_single
  intro x hx
  simpa using h x hx

theorem length_trim_le (l : Str) : (trim l).length ≤ l.length := by
  rw [trim]
  calc (((l.dropWhile isWS).reverse.dropWhile isWS).reverse).length
      = ((l.dropWhile isWS).reverse.dropWhile isWS).length := List.length_reverse _
    _ ≤ (l.dropWhile isWS).reverse.length := (List.dropWhile_sublist _).length_le
    _ = (l.dropWhile isWS).length := List.length_reverse _
    _ ≤ l.length := (List.dropWhile_sublist _).length_le

theorem trim_head_not_ws (w : Str) (c : Char) (t : Str) (h : trim w = w)
    (hw : w = c :: t) : isWS c = false := by
  by_contra hc
  have hc2 : isWS c = true := by
    cases h3 : isWS c
    · exact absurd h3 hc
    · rfl
  have h1 : List.dropWhile isWS w = List.dropWhile isWS t := by
    rw [hw, List.dropWhile_cons, hc2]
    simp
  have h2 : (trim w).length ≤ t.length := by
    calc (trim w).length
        = ((w.dropWhile isWS).reverse.dropWhile isWS).length := List.length_reverse _
      _ ≤ (w.dropWhile isWS).reverse.length := (List.dropWhile_sublist _).length_le
      _ = (w.dropWhile isWS).length := List.length_reverse _
      _ = (t.dropWhile isWS).length := by rw [h1]
      _ ≤ t.length := (List.dropWhile_sublist _).length_le
  rw [h, hw] at h2
  simp at h2

theorem trim_last_not_ws (w : Str) (c : Char) (h : trim w = w)
    (hl : w.getLast? = some c) : isWS c = false := by
  by_contra hc
  have hc2 : isWS c = true := by
    cases h3 : isWS c
    · exact absurd h3 hc
    · rfl
  have hwne : w ≠ [] := by
    intro he
    rw [he] at hl
    simp at hl
  cases hd : List.dropWhile isWS w with
  | nil =>
    have : trim w = [] := by simp [trim, hd]
    rw [h] at this
    exact hwne this
  | cons d t =>
    have hdne : List.dropWhile isWS w ≠ [] := by simp [hd]
    have hsuffix : List.takeWhile isWS w ++ List.dropWhile isWS w = w :=
      List.takeWhile_append_dropWhile isWS w
    have hlast : (List.dropWhile isWS w).getLast? = some c := by
      have := @List.getLast?_append _ (List.takeWhile isWS w) (List.dropWhile isWS w)
      rw [hsuffix] at this
      rw [this] at hl
      cases hx : (List.dropWhile isWS w).getLast? with
      | none => exact absurd hx (by simp [hd])
      | some e =>
        rw [hx] at hl
        simpa using hl
    have hrev : (List.dropWhile isWS w).reverse.head? = some c := by
      rw [List.head?_reverse]
      exact hlast
    rcases hrv : (List.dropWhile isWS w).reverse with _ | ⟨e, t2⟩
    · rw [hrv] at hrev
      simp at hrev
    · have hec : e = c := by
        rw [hrv] at hrev
        simpa using hrev
      have h2 : (trim w).length ≤ t2.length := by
        calc (trim w).length
            = ((w.dropWhile isWS).reverse.dropWhile isWS).length := List.length_reverse _
          _ = ((e :: t2).dropWhile isWS).length := by rw [hrv]
          _ = (t2.dropWhile isWS).length := by
              rw [List.dropWhile_cons, hec, hc2]
              simp
          _ ≤ t2.length := (List.dropWhile_sublist _).length_le
      have h3 : w.length = t2.length + 1 + (List.takeWhile isWS w).length := by
        have : (List.dropWhile isWS w).length = t2.length + 1 := by
          rw [← List.length_reverse (List.dropWhile isWS w), hrv]
          simp
        have h4 := congrArg List.length hsuffix
        rw [List.length_append, this] at h4
        omega
      rw [h] at h2
      omega

end Tabled

namespace Tabled

theorem nonBlankLines_nil_of_trim_nil (text : Str) (h : trim text = []) :
    nonBlankLines text = [] := by
  rw [nonBlankLines, linesOf, h, List.splitOn_nil]
  simp [trim_nil]

theorem trim_ne_nil_of_nonBlank (text : Str) (h : nonBlankLines text ≠ []) :
    trim text ≠ [] := by
  intro he
  exact h (nonBlankLines_nil_of_trim_nil text he)

theorem cellAt_mem_or_nil (r : Row) (j : Nat) : cellAt r j ∈ r ∨ cellAt r j = [] := by
  by_cases h : j < r.length
  · rw [cellAt, List.getD_eq_getElem _ _ h]
    exact Or.inl (List.getElem_mem h)
  · exact Or.inr (cellAt_eq_nil r j (Nat.le_of_not_lt h))

/-- C5: the parser returns an empty grid when the input is blank or when the
dispatched parser finds no matching line, and the formatter returns the
empty string when the grid is empty or every cell is whitespace-only (so
every column is vacuous after filtering); none of them can fail in any
other way. -/
theorem c5_empty_results (text : Str) (data : Grid) (mw : Nat) :
    (trim text = [] → parse text = []) ∧
    (detectFormat text = .markdown → parseMarkdown text = [] → parse text = []) ∧
    (detectFormat text = .sql → parseSQL text = [] → parse text = []) ∧
    (detectFormat text = .tsv → parseTSV text = [] → parse text = []) ∧
    (detectFormat text = .csv → parseCSV text = [] → parse text = []) ∧
    (data = [] → format data mw = []) ∧
    ((∀ r ∈ data, ∀ c ∈ r, trim c = []) → format data mw = []) := by
  refine ⟨?_, ?_, ?_, ?_, ?_, ?_, ?_⟩
  · intro h
    rw [parse, if_pos (by simp [h])]
  · intro hd hp
    by_cases ht : (trim text).isEmpty
    · rw [parse, if_pos ht]
    · rw [parse, if_neg ht, hd, hp]
  · intro hd hp
    by_cases ht : (trim text).isEmpty
    · rw [parse, if_pos ht]
    · rw [parse, if_neg ht, hd, hp]
  · intro hd hp
    by_cases ht : (trim text).isEmpty
    · rw [parse, if_pos ht]
    · rw [parse, if_neg ht, hd, hp]
  · intro hd hp
    by_cases ht : (trim text).isEmpty
    · rw [parse, if_pos ht]
    · rw [parse, if_neg ht, hd, hp]
  · intro h
    rw [h, format, if_pos (by simp)]
  · intro h
    by_cases hd : data = []
    · rw [hd, format, if_pos (by simp)]
    · have hide : identifyNonEmptyColumns (normalizeGrid data) = [] := by
        rw [identifyNonEmptyColumns, List.filter_eq_nil_iff]
        intro j _
        simp only [Bool.not_eq_true]
        rw [← Bool.not_eq_true, List.any_eq_true]
        rintro ⟨r, hr, hc⟩
        rcases List.mem_map.mp hr with ⟨row, hrow, hreq⟩
        subst hreq
        have hcell : trim (cellAt (row ++ List.replicate (maxRowLen data - row.length) []) j) = [] := by
          rcases cellAt_mem_or_nil (row ++ List.replicate (maxRowLen data - row.length) []) j
            with hm | hm
          · rcases List.mem_append.mp hm with h2 | h2
            · exact h row hrow _ h2
            · rw [List.eq_of_mem_replicate h2]
              rfl
          · rw [hm]
            rfl
        rw [hcell] at hc
        simp at hc
      rw [format, if_neg (by simpa using hd), if_pos (by simp [hide])]

/-- Witness for C5: a whitespace-only input, a markdown-detected input whose
dedicated parser finds nothing, an empty grid and an all-whitespace grid. -/
theorem c5_witness :
    parse (' ' :: '\n' :: [' ']) = [] ∧
    parse "|---|\n|---|".data = [] ∧
    format [] 7 = [] ∧
    format [[[' ']], []] 7 = [] :=
  ⟨(c5_empty_results (' ' :: '\n' :: [' ']) [] 0).1 (by decide),
   (c5_empty_results "|---|\n|---|".data [] 0).2.1 (by decide) (by decide),
   (c5_empty_results [] [] 7).2.2.2.2.2.1 rfl,
   (c5_empty_results [] [[[' ']], []] 7).2.2.2.2.2.2 (by decide)⟩

/-- Counterexample to C6: on this markdown-detected text, every line is a
separator row, so the markdown parser yields the empty grid, yet parse
returns that empty grid rather than falling back to the CSV parse of the
text. -/
theorem c6_counterexample :
    detectFormat "|---|\n|---|".data = .markdown ∧
    parseMarkdown "|---|\n|---|".data = [] ∧
    parse "|---|\n|---|".data ≠ parseCSV "|---|\n|---|".data := by
  refine ⟨by decide, by decide, by decide⟩

theorem detectFormat_ne_unknown (text : Str) (h : nonBlankLines text ≠ []) :
    detectFormat text ≠ .unknown := by
  intro hu
  simp only [detectFormat] at hu
  split_ifs at hu with h1 h2 h3 h4
  exact h (List.length_eq_zero.mp h1)

/-- Amended C6: for input with at least one non-blank line, parse returns
exactly the detected format's dedicated parser's result, even when that
result is the empty grid; the CSV fallback branch is reserved for the
unknown tag, which is never produced for such input. -/
theorem c6_amended_no_fallback (text : Str) (h : nonBlankLines text ≠ []) :
    detectFormat text ≠ .unknown ∧
    (detectFormat text = .markdown → parse text = parseMarkdown text) ∧
    (detectFormat text = .sql → parse text = parseSQL text) ∧
    (detectFormat text = .tsv → parse text = parseTSV text) ∧
    (detectFormat text = .csv → parse text = parseCSV text) := by
  have ht : ¬(trim text).isEmpty := by
    simpa using trim_ne_nil_of_nonBlank text h
  exact ⟨detectFormat_ne_unknown text h,
    fun hd => by rw [parse, if_neg ht, hd],
    fun hd => by rw [parse, if_neg ht, hd],
    fun hd => by rw [parse, if_neg ht, hd],
    fun hd => by rw [parse, if_neg ht, hd]⟩

/-- Witness for the amended C6 on the counterexample text. -/
theorem c6_amended_witness :
    detectFormat "|---|\n|---|".data ≠ .unknown ∧
    parse "|---|\n|---|".data = parseMarkdown "|---|\n|---|".data :=
  ⟨(c6_amended_no_fallback "|---|\n|---|".data (by decide)).1,
   (c6_amended_no_fallback "|---|\n|---|".data (by decide)).2.1 (by decide)⟩

end Tabled

namespace Tabled

/-- Counterexample to C7: the cell consisting of a double quote followed by
hello has an unmatched leading quote, which the claim says is left
unchanged; the CSV parser strips it anyway. -/
theorem c7_counterexample :
    parseCSV ('"' :: "hello".data) = [["hello".data]] ∧
    ('"' :: "hello".data) ≠ "hello".data := by
  refine ⟨by decide, by decide⟩

theorem parseCSV_single_cell (l : Str) (hne : l ≠ []) (htr : trim l = l)
    (hc : ∀ c ∈ l, c ≠ ',' ∧ c ≠ '\n') : parseCSV l = [[stripQuotes l]] := by
  have hlines : nonBlankLines l = [l] := by
    rw [nonBlankLines, linesOf, htr, splitOn_no_sep l '\n' (fun c hcm => (hc c hcm).2)]
    rw [List.filter_cons]
    have : (!(trim l).isEmpty) = true := by
      rw [htr]
      simpa using hne
    rw [if_pos this]
    rfl
  rw [parseCSV, hlines, List.map_cons, List.map_nil,
    splitOn_no_sep l ',' (fun c hcm => (hc c hcm).1), List.map_cons, List.map_nil, htr]

theorem getLast?_cons_of_ne_nil (a : Char) (w : Str) (h : w ≠ []) :
    (a :: w).getLast? = w.getLast? := by
  have : (a :: w) = [a] ++ w := rfl
  rw [this, List.getLast?_append]
  cases hx : w.getLast? with
  | none => exact absurd (List.getLast?_eq_none_iff.mp hx) h
  | some c => rfl

/-- Amended C7: the CSV parser strips one leading quote character when
present and one trailing quote character when present, independently; the
two need not both be present, nor match.  A quote in the interior of the
cell is untouched. -/
theorem c7_amended_quote_stripping (w : Str) (hne : w ≠ []) (htr : trim w = w)
    (hc : ∀ c ∈ w, c ≠ ',' ∧ c ≠ '\n')
    (hh : ∀ c, w.head? = some c → isQuote c = false)
    (hl : ∀ c, w.getLast? = some c → isQuote c = false) :
    parseCSV w = [[w]] ∧
    parseCSV ('"' :: w) = [[w]] ∧
    parseCSV (w ++ ['"']) = [[w]] ∧
    parseCSV ('"' :: w ++ ['"']) = [[w]] ∧
    parseCSV (squote :: w ++ [squote]) = [[w]] := by
  obtain ⟨a, t, hat⟩ : ∃ a t, w = a :: t := by
    cases w with
    | nil => exact absurd rfl hne
    | cons a t => exact ⟨a, t, rfl⟩
  obtain ⟨b, hb⟩ : ∃ b, w.getLast? = some b := by
    cases hx : w.getLast? with
    | none => exact absurd (List.getLast?_eq_none_iff.mp hx) hne
    | some c => exact ⟨c, rfl⟩
  have hwa : isWS a = false := trim_head_not_ws w a t htr hat
  have hwb : isWS b = false := trim_last_not_ws w b htr hb
  have hqa : isQuote a = false := hh a (by rw [hat]; rfl)
  have hqb : isQuote b = false := hl b hb
  have hleadcons : ∀ (c : Char) (rest : Str),
      stripLeadQuote (c :: rest) = if isQuote c then rest else c :: rest := fun _ _ => rfl
  have htraileq : ∀ (s : Str) (e : Char), s.getLast? = some e →
      stripTrailQuote s = if isQuote e then s.dropLast else s := by
    intro s e he
    rw [stripTrailQuote.eq_def, he]
  have hstrip0 : stripQuotes w = w := by
    rw [stripQuotes, hat, hleadcons, if_neg (by simp [hqa]), ← hat,
      htraileq w b hb, if_neg (by simp [hqb])]
  have hstripL : ∀ q, isQuote q = true → stripQuotes (q :: w) = w := by
    intro q hq
    rw [stripQuotes, hleadcons, if_pos hq, htraileq w b hb, if_neg (by simp [hqb])]
  have hstripR : ∀ q, isQuote q = true → stripQuotes (w ++ [q]) = w := by
    intro q hq
    have hlead : stripLeadQuote (w ++ [q]) = w ++ [q] := by
      rw [hat, List.cons_append, hleadcons, if_neg (by simp [hqa])]
    rw [stripQuotes, hlead, htraileq _ q (List.getLast?_concat w), if_pos hq,
      List.dropLast_concat]
  have hstripB : ∀ q1 q2, isQuote q1 = true → isQuote q2 = true →
      stripQuotes (q1 :: w ++ [q2]) = w := by
    intro q1 q2 hq1 hq2
    rw [stripQuotes, List.cons_append, hleadcons, if_pos hq1,
      htraileq _ q2 (List.getLast?_concat w), if_pos hq2, List.dropLast_concat]
  have hmemL : ∀ (q : Char), q ≠ ',' → q ≠ '\n' → ∀ c ∈ q :: w, c ≠ ',' ∧ c ≠ '\n' := by
    intro q hq1 hq2 c hcm
    rcases List.mem_cons.mp hcm with h2 | h2
    · exact h2 ▸ ⟨hq1, hq2⟩
    · exact hc c h2
  have hmemR : ∀ (q : Char), q ≠ ',' → q ≠ '\n' → ∀ c ∈ w ++ [q], c ≠ ',' ∧ c ≠ '\n' := by
    intro q hq1 hq2 c hcm
    rcases List.mem_append.mp hcm with h2 | h2
    · exact hc c h2
    · rw [List.mem_singleton.mp h2]
      exact ⟨hq1, hq2⟩
  have htrL : ∀ (q : Char), isWS q = false → trim (q :: w) = q :: w := by
    intro q hq
    apply trim_eq_self (q :: w) q b rfl hq _ hwb
    rw [getLast?_cons_of_ne_nil q w hne]
    exact hb
  have htrR : ∀ (q : Char), isWS q = false → trim (w ++ [q]) = w ++ [q] := by
    intro q hq
    apply trim_eq_self (w ++ [q]) a q _ hwa (List.getLast?_concat w) hq
    rw [hat, List.cons_append]
    rfl
  have htrB : ∀ (q1 q2 : Char), isWS q1 = false → isWS q2 = false →
      trim (q1 :: w ++ [q2]) = q1 :: w ++ [q2] := by
    intro q1 q2 hq1 hq2
    exact trim_eq_self ((q1 :: w) ++ [q2]) q1 q2 rfl hq1 (List.getLast?_concat _) hq2
  refine ⟨?_, ?_, ?_, ?_, ?_⟩
  · rw [parseCSV_single_cell w hne htr hc, hstrip0]
  · rw [parseCSV_single_cell ('"' :: w) (by simp) (htrL '"' (by decide))
      (hmemL '"' (by decide) (by decide)), hstripL '"' (by decide)]
  · rw [parseCSV_single_cell (w ++ ['"']) (by simp) (htrR '"' (by decide))
      (hmemR '"' (by decide) (by decide)), hstripR '"' (by decide)]
  · rw [parseCSV_single_cell (('"' :: w) ++ ['"']) (by simp)
      (htrB '"' '"' (by decide) (by decide))
      (fun c hcm => by
        rcases List.mem_append.mp hcm with h2 | h2
        · exact hmemL '"' (by decide) (by decide) c h2
        · rw [List.mem_singleton.mp h2]
          exact ⟨by decide, by decide⟩),
      hstripB '"' '"' (by decide) (by decide)]
  · rw [parseCSV_single_cell ((squote :: w) ++ [squote]) (by simp)
      (htrB squote squote (by decide) (by decide))
      (fun c hcm => by
        rcases List.mem_append.mp hcm with h2 | h2
        · exact hmemL squote (by decide) (by decide) c h2
        · rw [List.mem_singleton.mp h2]
          exact ⟨by decide, by decide⟩),
      hstripB squote squote (by decide) (by decide)]

/-- Witness for the amended C7 at the cell from the specification example,
whose single inner quote is untouched while outer quotes in any
combination are stripped. -/
theorem c7_amended_witness :
    parseCSV "it's".data = [["it's".data]] ∧
    parseCSV ('"' :: "it's".data) = [["it's".data]] ∧
    parseCSV ("it's".data ++ ['"']) = [["it's".data]] ∧
    parseCSV ('"' :: "it's".data ++ ['"']) = [["it's".data]] ∧
    parseCSV (squote :: "it's".data ++ [squote]) = [["it's".data]] :=
  c7_amended_quote_stripping "it's".data (by decide) (by decide) (by decide)
    (by decide) (by decide)

/-- Counterexample to C8: a text containing an ASCII border line that is
nevertheless classified as markdown, because more than half of its lines
are pipe-delimited and the markdown check runs first. -/
theorem c8_counterexample :
    "+--+".data ∈ nonBlankLines "|a|\n|b|\n+--+".data ∧
    sqlBorderTest "+--+".data = true ∧
    detectFormat "|a|\n|b|\n+--+".data ≠ .sql ∧
    detectFormat "|a|\n|b|\n+--+".data = .markdown := by
  refine ⟨by decide, by decide, by decide, by decide⟩

/-- Amended C8: a text with a non-blank ASCII border line is classified as
sql provided the markdown majority check fails, that is, at most half of
the non-blank lines match the markdown pipe pattern. -/
theorem c8_amended_border_is_sql (text : Str)
    (h1 : ∃ l ∈ nonBlankLines text, sqlBorderTest l = true)
    (h2 : 2 * ((nonBlankLines text).filter markdownTest).length ≤
      (nonBlankLines text).length) :
    detectFormat text = .sql := by
  have hne : nonBlankLines text ≠ [] := by
    rcases h1 with ⟨l, hl, _⟩
    exact List.ne_nil_of_mem hl
  simp only [detectFormat]
  rw [if_neg (by simpa using fun he => hne (List.length_eq_zero.mp he)),
    if_neg (by omega), if_pos]
  rw [Bool.or_eq_true]
  exact Or.inl (List.any_eq_true.mpr h1)

/-- Witness for the amended C8: a border line plus a line with no pipes. -/
theorem c8_amended_witness : detectFormat "+--+\nfoo".data = .sql :=
  c8_amended_border_is_sql "+--+\nfoo".data (by decide) (by decide)

end Tabled

namespace Tabled

/-! ### Lemmas about the filtered grid -/

theorem normalizeGrid_ne_nil (data : Grid) (hd : data ≠ []) : normalizeGrid data ≠ [] := by
  simpa [normalizeGrid] using hd

theorem filteredGrid_ne_nil (data : Grid) (hd : data ≠ []) : filteredGrid data ≠ [] :=
  subGrid_ne_nil _ _ (normalizeGrid_ne_nil data hd)

theorem filteredGrid_row_length (data : Grid) (r : Row) (hr : r ∈ filteredGrid data) :
    r.length = (identifyNonEmptyColumns (normalizeGrid data)).length := by
  rw [filteredGrid] at hr
  exact subGrid_row_length _ _ r hr

theorem filteredNumColsOf_eq (data : Grid) (hd : data ≠ []) :
    filteredNumColsOf data = (identifyNonEmptyColumns (normalizeGrid data)).length := by
  cases hf : filteredGrid data with
  | nil => exact absurd hf (filteredGrid_ne_nil data hd)
  | cons hd0 tl =>
    rw [filteredNumColsOf, hf, List.headD_cons]
    exact filteredGrid_row_length data hd0 (by rw [hf]; exact List.mem_cons_self hd0 tl)

theorem maxRowLen_filteredGrid (data : Grid) (hd : data ≠ []) :
    maxRowLen (filteredGrid data) = (identifyNonEmptyColumns (normalizeGrid data)).length :=
  maxRowLen_eq _ _ (filteredGrid_ne_nil data hd) (fun r hr => filteredGrid_row_length data r hr)

theorem filteredWidths_length (data : Grid) (hd : data ≠ []) :
    (filteredWidths data).length = (identifyNonEmptyColumns (normalizeGrid data)).length := by
  rw [filteredWidths, filteredGrid, calculateColumnWidths_length, ← filteredGrid,
    maxRowLen_filteredGrid data hd]

theorem filteredWidths_of_id_nil (data : Grid)
    (hid : identifyNonEmptyColumns (normalizeGrid data) = []) :
    filteredWidths data = [] := by
  by_cases hd : data = []
  · rw [hd]
    rfl
  · apply List.eq_nil_of_length_eq_zero
    rw [filteredWidths_length data hd, hid]
    rfl

theorem filteredNumColsOf_of_id_nil (data : Grid)
    (hid : identifyNonEmptyColumns (normalizeGrid data) = []) :
    filteredNumColsOf data = 0 := by
  by_cases hd : data = []
  · rw [hd]
    rfl
  · rw [filteredNumColsOf_eq data hd, hid]
    rfl

end Tabled

namespace Tabled

theorem formatSingleTableLines_ne_nil_lines (data : Grid) (idxs : List Nat) :
    ∀ l ∈ formatSingleTableLines data idxs, l ≠ [] := by
  rw [formatSingleTableLines]
  cases hT : subGrid data idxs with
  | nil => simp
  | cons hd0 tl =>
    intro l hl
    simp only at hl
    rcases List.mem_cons.mp hl with h | h
    · rw [h, formatRow]
      exact List.cons_ne_nil _ _
    rcases List.mem_cons.mp h with h2 | h2
    · rw [h2, formatSeparator]
      exact List.cons_ne_nil _ _
    · rcases List.mem_map.mp h2 with ⟨r, _, hreq⟩
      rw [← hreq, formatRow]
      exact List.cons_ne_nil _ _

theorem format_squeeze_eq (data : Grid) (mw : Nat)
    (h1 : filteredNumColsOf data ≤ MAX_COLUMNS_BEFORE_SPLIT)
    (h2 : 2 * MIN_COLUMN_WIDTH * (filteredWidths data).length ≤ (filteredWidths data).sum)
    (h3 : mw < calculateTableWidth (filteredWidths data))
    (h4 : filteredNumColsOf data * MIN_COLUMN_WIDTH < mw - (3 * filteredNumColsOf data + 1)) :
    format data mw =
      formatSingleTable
        ((filteredGrid data).map (fun row => truncateCells row
          (adjustedWidthsOf (filteredWidths data) (mw - (3 * filteredNumColsOf data + 1)))))
        (List.range (filteredNumColsOf data)) := by
  by_cases hd : data = []
  · exfalso
    subst hd
    have e1 : calculateTableWidth (filteredWidths []) = 1 := rfl
    have e2 : filteredNumColsOf [] = 0 := rfl
    rw [e1] at h3
    rw [e2] at h4
    simp only [MIN_COLUMN_WIDTH] at h4
    omega
  by_cases hid : identifyNonEmptyColumns (normalizeGrid data) = []
  · exfalso
    have e1 : filteredWidths data = [] := filteredWidths_of_id_nil data hid
    have e2 : filteredNumColsOf data = 0 := filteredNumColsOf_of_id_nil data hid
    rw [e1] at h3
    rw [e2] at h4
    simp only [MIN_COLUMN_WIDTH, calculateTableWidth] at h3 h4
    simp at h3 h4
    omega
  · simp only [filteredWidths, filteredGrid, filteredNumColsOf] at h1 h2 h3 h4 ⊢
    simp only [format]
    rw [if_neg (by simpa using hd), if_neg (by simpa using hid),
      if_neg (Nat.not_le.mpr h3), if_pos ⟨⟨h1, h2⟩, h4⟩]

/-- C2: under the squeeze conditions — at most ten filtered columns, mean
filtered width at least six, total rendered width above the budget, and the
available width after overhead above three per column — format takes the
squeeze path: it renders exactly one table (none of whose lines is blank)
over the filtered grid with every cell truncated by a hard prefix cut to
its column's final adjusted width. -/
theorem c2_squeeze_single_table (data : Grid) (mw : Nat)
    (h1 : filteredNumColsOf data ≤ MAX_COLUMNS_BEFORE_SPLIT)
    (h2 : 2 * MIN_COLUMN_WIDTH * (filteredWidths data).length ≤ (filteredWidths data).sum)
    (h3 : mw < calculateTableWidth (filteredWidths data))
    (h4 : filteredNumColsOf data * MIN_COLUMN_WIDTH < mw - (3 * filteredNumColsOf data + 1)) :
    format data mw =
      formatSingleTable
        ((filteredGrid data).map (fun row => truncateCells row
          (adjustedWidthsOf (filteredWidths data) (mw - (3 * filteredNumColsOf data + 1)))))
        (List.range (filteredNumColsOf data)) ∧
    ∀ l ∈ formatSingleTableLines
        ((filteredGrid data).map (fun row => truncateCells row
          (adjustedWidthsOf (filteredWidths data) (mw - (3 * filteredNumColsOf data + 1)))))
        (List.range (filteredNumColsOf data)), l ≠ [] :=
  ⟨format_squeeze_eq data mw h1 h2 h3 h4, formatSingleTableLines_ne_nil_lines _ _⟩

/-- Witness for C2: a two-row grid with two sixty-wide and two six-wide
columns and the default budget of one hundred. -/
theorem c2_witness :
    format [[List.replicate 60 'a', List.replicate 60 'b',
             List.replicate 6 'c', List.replicate 6 'd'],
            [['x'], ['y'], ['z'], ['w']]] 100 =
      formatSingleTable
        ((filteredGrid [[List.replicate 60 'a', List.replicate 60 'b',
             List.replicate 6 'c', List.replicate 6 'd'],
            [['x'], ['y'], ['z'], ['w']]]).map (fun row => truncateCells row
          (adjustedWidthsOf (filteredWidths [[List.replicate 60 'a', List.replicate 60 'b',
             List.replicate 6 'c', List.replicate 6 'd'],
            [['x'], ['y'], ['z'], ['w']]])
            (100 - (3 * filteredNumColsOf [[List.replicate 60 'a', List.replicate 60 'b',
             List.replicate 6 'c', List.replicate 6 'd'],
            [['x'], ['y'], ['z'], ['w']]] + 1)))))
        (List.range (filteredNumColsOf [[List.replicate 60 'a', List.replicate 60 'b',
             List.replicate 6 'c', List.replicate 6 'd'],
            [['x'], ['y'], ['z'], ['w']]])) :=
  (c2_squeeze_single_table _ 100 (by decide) (by decide) (by decide) (by decide)).1

end Tabled

namespace Tabled

/-! ### Lemmas about the grouping loop -/

theorem splitGo_append (W : List Nat) (mw : Nat) (rep : Bool) :
    ∀ (rest cur : List Nat) (gs1 gs2 : List (List Nat)),
      splitGo W mw rep (gs1 ++ gs2) cur rest = gs1 ++ splitGo W mw rep gs2 cur rest := by
  intro rest
  induction rest with
  | nil =>
    intro cur gs1 gs2
    simp only [splitGo]
    split_ifs <;> simp [List.append_assoc]
  | cons i r ih =>
    intro cur gs1 gs2
    simp only [splitGo]
    split <;> split
    all_goals try exact ih (cur ++ [i]) gs1 gs2
    all_goals by_cases hc : cur.isEmpty
    all_goals try (rw [if_pos hc, if_pos hc]; exact ih _ gs1 gs2)
    all_goals rw [if_neg hc, if_neg hc, List.append_assoc]; exact ih _ gs1 (gs2 ++ [cur])

theorem splitGo_length_pos (W : List Nat) (mw : Nat) (rep : Bool) :
    ∀ (rest cur : List Nat) (gs : List (List Nat)), cur ≠ [] →
      gs.length + 1 ≤ (splitGo W mw rep gs cur rest).length := by
  intro rest
  induction rest with
  | nil =>
    intro cur gs hcur
    simp only [splitGo]
    rw [if_neg (by simpa using hcur)]
    simp
  | cons i r ih =>
    intro cur gs hcur
    simp only [splitGo]
    split <;> split
    all_goals try exact ih (cur ++ [i]) gs (by simp)
    all_goals
      rw [if_neg (by simpa using hcur)]
      have h2 := ih (if rep then [0, i] else [i]) (gs ++ [cur])
        (by split_ifs <;> simp)
      rw [List.length_append] at h2
      simp only [List.length_singleton] at h2
      omega

theorem splitGo_one_group (W : List Nat) (mw : Nat) (rep : Bool) :
    ∀ (rest cur : List Nat), cur.head? = some 0 →
      (splitGo W mw rep [] cur rest).length = 1 →
      rest = [] ∨
        calculateTableWidth ((cur ++ rest).map (fun idx => W.getD idx 0)) ≤ mw := by
  intro rest
  induction rest with
  | nil => exact fun cur _ _ => Or.inl rfl
  | cons i r ih =>
    intro cur hhead hlen
    obtain ⟨curt, hcurt⟩ : ∃ t, cur = 0 :: t := by
      cases cur with
      | nil => simp at hhead
      | cons c t => exact ⟨t, by simpa using congrArg (fun o => o.getD 0 :: t) hhead⟩
    have hcur : cur ≠ [] := by simp [hcurt]
    simp only [splitGo] at hlen
    have htg : (if rep && decide (1 < cur.length) then 0 :: cur.tail ++ [i]
        else cur ++ [i]) = cur ++ [i] := by
      split_ifs with h
      · rw [hcurt]
        rfl
      · rfl
    rw [htg] at hlen
    by_cases hw : calculateTableWidth ((cur ++ [i]).map (fun idx => W.getD idx 0)) ≤ mw
    · rw [if_pos hw] at hlen
      have hh2 : (cur ++ [i]).head? = some 0 := by
        rw [hcurt]
        rfl
      rcases ih (cur ++ [i]) hh2 hlen with h | h
      · subst h
        exact Or.inr (by simpa using hw)
      · refine Or.inr ?_
        have he : cur ++ i :: r = (cur ++ [i]) ++ r := by simp
        rw [he]
        exact h
    · rw [if_neg hw] at hlen
      rw [if_neg (by simpa using hcur)] at hlen
      exfalso
      have hpos := splitGo_length_pos W mw rep r (if rep then [0, i] else [i])
        ([] ++ [cur]) (by split_ifs <;> simp)
      rw [hlen] at hpos
      simp at hpos

theorem split_groups_ge_two (W : List Nat) (mw : Nat) (rep : Bool)
    (hW : 2 ≤ W.length) (hw : mw < calculateTableWidth W) :
    2 ≤ (splitColumnsIntoGroups W mw rep).length := by
  have hWne : W ≠ [] := by
    intro h
    rw [h] at hW
    simp at hW
  rw [splitColumnsIntoGroups, if_neg (by simpa using hWne)]
  by_contra hcon
  have h1 : 1 ≤ (splitGo W mw rep [] [0] (List.range' 1 (W.length - 1))).length := by
    have := splitGo_length_pos W mw rep (List.range' 1 (W.length - 1)) [0] []
      (by simp)
    simpa using this
  have hlen1 : (splitGo W mw rep [] [0] (List.range' 1 (W.length - 1))).length = 1 := by
    omega
  rcases splitGo_one_group W mw rep (List.range' 1 (W.length - 1)) [0] rfl hlen1 with h | h
  · have := congrArg List.length h
    rw [List.length_range'] at this
    simp at this
    omega
  · have hr : ([0] ++ List.range' 1 (W.length - 1) : List Nat) = List.range W.length := by
      rw [List.range_eq_range']
      obtain ⟨n, hn⟩ : ∃ n, W.length = n + 1 := ⟨W.length - 1, by omega⟩
      rw [hn, List.range'_succ]
      simp
    rw [hr, map_getD_range] at h
    omega

end Tabled

namespace Tabled

/-- Counterexample to C9: an eleven-column grid whose total rendered width
fits the budget renders as one table — the single-table check runs before
the column-count check, so the split is not forced regardless of width. -/
theorem c9_counterexample :
    MAX_COLUMNS_BEFORE_SPLIT <
      filteredNumColsOf (List.replicate 2 (List.replicate 11 ['x'])) ∧
    format (List.replicate 2 (List.replicate 11 ['x'])) 100 =
      formatSingleTable (filteredGrid (List.replicate 2 (List.replicate 11 ['x'])))
        (List.range (filteredNumColsOf (List.replicate 2 (List.replicate 11 ['x'])))) ∧
    ¬ ([] ∈ (format (List.replicate 2 (List.replicate 11 ['x'])) 100).splitOn '\n') := by
  refine ⟨by decide, by decide, by decide⟩

/-- Amended C9: a grid with more than ten filtered columns takes the split
path provided its total rendered width exceeds maxWidth, and the split then
produces at least two tables; when the total width fits within maxWidth the
single-table path wins regardless of the column count. -/
theorem c9_amended_split_forced (data : Grid) (mw : Nat)
    (h1 : MAX_COLUMNS_BEFORE_SPLIT < filteredNumColsOf data)
    (h2 : mw < calculateTableWidth (filteredWidths data)) :
    format data mw = List.intercalate ['\n', '\n']
      ((splitColumnsIntoGroups (filteredWidths data) mw
        (hasUniqueFirstColumn (filteredGrid data))).map
        (fun g => formatSingleTable (filteredGrid data) g)) ∧
    2 ≤ (splitColumnsIntoGroups (filteredWidths data) mw
      (hasUniqueFirstColumn (filteredGrid data))).length := by
  by_cases hd : data = []
  · exfalso
    subst hd
    have e2 : filteredNumColsOf [] = 0 := rfl
    rw [e2] at h1
    simp [MAX_COLUMNS_BEFORE_SPLIT] at h1
  by_cases hid : identifyNonEmptyColumns (normalizeGrid data) = []
  · exfalso
    rw [filteredNumColsOf_of_id_nil data hid] at h1
    simp [MAX_COLUMNS_BEFORE_SPLIT] at h1
  have hWlen : (filteredWidths data).length = filteredNumColsOf data := by
    rw [filteredWidths_length data hd, filteredNumColsOf_eq data hd]
  constructor
  · simp only [filteredWidths, filteredGrid, filteredNumColsOf] at h1 h2 ⊢
    simp only [format]
    rw [if_neg (by simpa using hd), if_neg (by simpa using hid),
      if_neg (Nat.not_le.mpr h2), if_neg]
    rintro ⟨⟨ha, _⟩, _⟩
    exact absurd h1 (Nat.not_lt.mpr ha)
  · apply split_groups_ge_two _ _ _ _ h2
    rw [hWlen]
    simp only [MAX_COLUMNS_BEFORE_SPLIT] at h1
    omega

/-- Witness for the amended C9 on a too-wide eleven-column grid. -/
theorem c9_amended_witness :
    format (List.replicate 2 (List.replicate 11 (List.replicate 9 'x'))) 100 =
      List.intercalate ['\n', '\n']
        ((splitColumnsIntoGroups
          (filteredWidths (List.replicate 2 (List.replicate 11 (List.replicate 9 'x')))) 100
          (hasUniqueFirstColumn
            (filteredGrid (List.replicate 2 (List.replicate 11 (List.replicate 9 'x')))))).map
          (fun g => formatSingleTable
            (filteredGrid (List.replicate 2 (List.replicate 11 (List.replicate 9 'x')))) g)) :=
  (c9_amended_split_forced (List.replicate 2 (List.replicate 11 (List.replicate 9 'x'))) 100
    (by decide) (by decide)).1

end Tabled

namespace Tabled

theorem splitGo_flatten_count (W : List Nat) (mw : Nat) (rep : Bool) :
    ∀ (rest cur : List Nat) (gs : List (List Nat)) (j : Nat), (rep = true → j ≠ 0) →
      List.count j (splitGo W mw rep gs cur rest).flatten =
        List.count j (gs.flatten ++ cur ++ rest) := by
  intro rest
  induction rest with
  | nil =>
    intro cur gs j hj
    simp only [splitGo]
    split_ifs with hc
    · rw [List.isEmpty_iff.mp hc]
      simp
    · simp [List.flatten_append, List.count_append]
  | cons i r ih =>
    intro cur gs j hj
    simp only [splitGo]
    split <;> split
    all_goals try (
      rw [ih (cur ++ [i]) gs j hj]
      simp only [List.count_append, List.count_cons, List.count_nil]
      omega)
    all_goals
      rw [ih (if rep then [0, i] else [i]) (if cur.isEmpty = true then gs else gs ++ [cur]) j hj]
      have hnc : List.count j (if rep then [0, i] else [i]) = List.count j [i] := by
        split_ifs with hr
        · have hne : (0 == j) = false := by
            have h0 := hj hr
            simpa using fun he => h0 he.symm
          rw [show ([0, i] : List Nat) = 0 :: [i] from rfl, List.count_cons, hne]
          simp
        · rfl
      have hflat : (if cur.isEmpty = true then gs else gs ++ [cur]).flatten =
          gs.flatten ++ cur := by
        split_ifs with hc
        · rw [List.isEmpty_iff.mp hc]
          simp
        · simp [List.flatten_append]
      rw [hflat]
      simp only [List.count_append, hnc, List.count_cons, List.count_nil]
      omega

theorem splitGo_zero_mem (W : List Nat) (mw : Nat) :
    ∀ (rest cur : List Nat) (gs : List (List Nat)), 0 ∈ cur → (∀ g ∈ gs, 0 ∈ g) →
      ∀ g ∈ splitGo W mw true gs cur rest, 0 ∈ g := by
  intro rest
  induction rest with
  | nil =>
    intro cur gs hcur hgs
    simp only [splitGo]
    split_ifs with hc
    · exact hgs
    · intro g hg
      rcases List.mem_append.mp hg with h | h
      · exact hgs g h
      · rw [List.mem_singleton.mp h]
        exact hcur
  | cons i r ih =>
    intro cur gs hcur hgs
    simp only [splitGo]
    split <;> split
    all_goals try exact ih (cur ++ [i]) gs (List.mem_append.mpr (Or.inl hcur)) hgs
    all_goals
      apply ih (if (true : Bool) then [0, i] else [i])
        (if cur.isEmpty = true then gs else gs ++ [cur])
      · simp
      · intro g hg
        split_ifs at hg with hc
        · exact hgs g hg
        · rcases List.mem_append.mp hg with h | h
          · exact hgs g h
          · rw [List.mem_singleton.mp h]
            exact hcur

theorem splitGo_head_structure (W : List Nat) (mw : Nat) (rep : Bool) :
    ∀ (rest cur : List Nat), cur ≠ [] →
      ∃ ext gs, splitGo W mw rep [] cur rest = (cur ++ ext) :: gs ∧
        (∀ x ∈ ext, x ∈ rest) ∧
        (∀ g ∈ gs, ∀ x ∈ g, x ∈ rest ∨ (rep = true ∧ x = 0)) := by
  intro rest
  induction rest with
  | nil =>
    intro cur hcur
    refine ⟨[], [], ?_, by simp, by simp⟩
    simp only [splitGo]
    rw [if_neg (by simpa using hcur)]
    simp
  | cons i r ih =>
    intro cur hcur
    simp only [splitGo]
    by_cases hw : calculateTableWidth
        ((if rep && decide (1 < cur.length) then 0 :: cur.tail ++ [i]
          else cur ++ [i]).map (fun idx => W.getD idx 0)) ≤ mw
    · rw [if_pos hw]
      rcases ih (cur ++ [i]) (by simp) with ⟨ext2, gs2, heq2, hext2, hgs2⟩
      refine ⟨i :: ext2, gs2, ?_, ?_, ?_⟩
      · rw [heq2, List.append_assoc]
        rfl
      · intro x hx
        rcases List.mem_cons.mp hx with h | h
        · rw [h]
          exact List.mem_cons_self i r
        · exact List.mem_cons_of_mem i (hext2 x h)
      · intro g hg x hx
        rcases hgs2 g hg x hx with h | h
        · exact Or.inl (List.mem_cons_of_mem i h)
        · exact Or.inr h
    · rw [if_neg hw, if_neg (by simpa using hcur)]
      have happ : splitGo W mw rep ([] ++ [cur]) (if rep then [0, i] else [i]) r =
          [cur] ++ splitGo W mw rep [] (if rep then [0, i] else [i]) r := by
        rw [show ([] ++ [cur] : List (List Nat)) = [cur] ++ [] by simp]
        exact splitGo_append W mw rep r (if rep then [0, i] else [i]) [cur] []
      rw [happ]
      rcases ih (if rep then [0, i] else [i]) (by split_ifs <;> simp)
        with ⟨ext2, gs2, heq2, hext2, hgs2⟩
      refine ⟨[], ((if rep then [0, i] else [i]) ++ ext2) :: gs2, ?_, by simp, ?_⟩
      · rw [heq2]
        simp
      · intro g hg x hx
        rcases List.mem_cons.mp hg with h | h
        · subst h
          rcases List.mem_append.mp hx with h2 | h2
          · split_ifs at h2 with hr
            · rcases List.mem_cons.mp h2 with h3 | h3
              · exact Or.inr ⟨hr, h3⟩
              · rw [List.mem_singleton.mp h3]
                exact Or.inl (List.mem_cons_self i r)
            · rw [List.mem_singleton.mp h2]
              exact Or.inl (List.mem_cons_self i r)
          · exact Or.inl (List.mem_cons_of_mem i (hext2 x h2))
        · rcases hgs2 g h x hx with h2 | h2
          · exact Or.inl (List.mem_cons_of_mem i h2)
          · exact Or.inr h2

end Tabled

namespace Tabled

theorem count_range'_one (j s n : Nat) (h1 : s ≤ j) (h2 : j < s + n) :
    List.count j (List.range' s n) = 1 := by
  apply Nat.le_antisymm
  · exact List.nodup_iff_count_le_one.mp (List.nodup_range' s n) j
  · exact List.count_pos_iff.mpr (List.mem_range'.mpr ⟨j - s, by omega, by omega⟩)

theorem split_groups_properties (W : List Nat) (mw : Nat) (rep : Bool) (hW : W ≠ []) :
    (∃ ext gs, splitColumnsIntoGroups W mw rep = (0 :: ext) :: gs) ∧
    (∀ j, 1 ≤ j → j < W.length →
      List.count j (splitColumnsIntoGroups W mw rep).flatten = 1) ∧
    (rep = true → ∀ g ∈ splitColumnsIntoGroups W mw rep, 0 ∈ g) ∧
    (rep = false →
      List.count 0 (splitColumnsIntoGroups W mw rep).flatten = 1 ∧
      ∀ g ∈ (splitColumnsIntoGroups W mw rep).tail, 0 ∉ g) := by
  have hsplit : splitColumnsIntoGroups W mw rep =
      splitGo W mw rep [] [0] (List.range' 1 (W.length - 1)) := by
    rw [splitColumnsIntoGroups, if_neg (by simpa using hW)]
  rcases splitGo_head_structure W mw rep (List.range' 1 (W.length - 1)) [0] (by simp)
    with ⟨ext, gs, heq, hext, hgs⟩
  refine ⟨⟨ext, gs, by rw [hsplit, heq]; rfl⟩, ?_, ?_, ?_⟩
  · intro j hj1 hj2
    rw [hsplit, splitGo_flatten_count W mw rep _ [0] [] j (fun _ => by omega)]
    have h0 : List.count j [0] = 0 := by
      rw [List.count_singleton]
      simp
      omega
    have h1 : List.count j (List.range' 1 (W.length - 1)) = 1 := by
      apply count_range'_one j 1 (W.length - 1) hj1
      omega
    simp only [List.flatten_nil, List.nil_append, List.count_append, h0, h1]
  · intro hrep
    subst hrep
    rw [hsplit]
    exact splitGo_zero_mem W mw _ [0] [] (by simp) (by simp)
  · intro hrep
    subst hrep
    constructor
    · rw [hsplit, splitGo_flatten_count W mw false _ [0] [] 0 (by simp)]
      have h0 : List.count 0 (List.range' 1 (W.length - 1)) = 0 := by
        rw [List.count_eq_zero]
        intro hm
        rcases List.mem_range'.mp hm with ⟨i, _, hi⟩
        omega
      simp only [List.flatten_nil, List.nil_append, List.count_append, h0,
        List.count_singleton]
      simp
    · rw [hsplit, heq]
      intro g hg h0g
      rcases hgs g (by simpa using hg) 0 h0g with h | h
      · rcases List.mem_range'.mp h with ⟨i, _, hi⟩
        omega
      · exact Bool.false_ne_true h.1

/-- C3: whenever the formatter splits, column zero of the filtered set opens
the first group; every other retained index lands in exactly one group;
when the first column is a detected key column (hasUniqueFirstColumn) it is
repeated into every group, and when it has a repeated non-empty value
(hasUniqueFirstColumn false) it appears exactly once, in the first group
only. -/
theorem c3_grouping_partition (data : Grid) (W : List Nat) (mw : Nat) (hW : W ≠ []) :
    (∃ ext gs, splitColumnsIntoGroups W mw (hasUniqueFirstColumn data) = (0 :: ext) :: gs) ∧
    (∀ j, 1 ≤ j → j < W.length →
      List.count j (splitColumnsIntoGroups W mw (hasUniqueFirstColumn data)).flatten = 1) ∧
    (hasUniqueFirstColumn data = true →
      ∀ g ∈ splitColumnsIntoGroups W mw (hasUniqueFirstColumn data), 0 ∈ g) ∧
    (hasUniqueFirstColumn data = false →
      List.count 0 (splitColumnsIntoGroups W mw (hasUniqueFirstColumn data)).flatten = 1 ∧
      ∀ g ∈ (splitColumnsIntoGroups W mw (hasUniqueFirstColumn data)).tail, 0 ∉ g) :=
  split_groups_properties W mw (hasUniqueFirstColumn data) hW

/-- Witness for C3 on a key-column grid and a width vector forcing a split:
the key column is repeated into the second group. -/
theorem c3_witness :
    List.count 1 (splitColumnsIntoGroups [10, 1] 10
      (hasUniqueFirstColumn [[['a']], [['b']]])).flatten = 1 ∧
    0 ∈ ([0, 1] : List Nat) :=
  ⟨(c3_grouping_partition [[['a']], [['b']]] [10, 1] 10 (by decide)).2.1 1
      (by decide) (by decide),
   (c3_grouping_partition [[['a']], [['b']]] [10, 1] 10 (by decide)).2.2.1 (by decide)
      [0, 1] (by decide)⟩

end Tabled

namespace Tabled

/-! ### Lemmas about the squeeze width adjustment -/

theorem sum_set_sub (l : List Nat) (i d : Nat) (h : i < l.length) (hd : d ≤ l.getD i 0) :
    (l.set i (l.getD i 0 - d)).sum + d = l.sum := by
  induction l generalizing i with
  | nil => simp at h
  | cons x t ih =>
    cases i with
    | zero =>
      simp only [List.getD_cons_zero] at hd ⊢
      simp only [List.set_cons_zero, List.sum_cons]
      omega
    | succ n =>
      simp only [List.set, List.sum_cons]
      have hn : n < t.length := by simpa using h
      have hd2 : d ≤ t.getD n 0 := by simpa [List.getD_cons_succ] using hd
      have := ih n hn hd2
      simp only [List.getD_cons_succ]
      omega

theorem trimExcess_length (ps : List (Nat × Nat)) :
    ∀ (adj : List Nat) (e : Nat), (trimExcess ps adj e).length = adj.length := by
  induction ps with
  | nil => intro adj e; rfl
  | cons p rest ih =>
    intro adj e
    obtain ⟨w, i⟩ := p
    simp only [trimExcess]
    rw [ih, List.length_set]

theorem trimExcess_sum_le (ps : List (Nat × Nat)) :
    ∀ (adj : List Nat) (excess : Nat),
      (ps.map Prod.snd).Nodup →
      (∀ p ∈ ps, p.2 < adj.length ∧ adj.getD p.2 0 = p.1 ∧ MIN_COLUMN_WIDTH ≤ p.1) →
      excess ≤ (ps.map (fun p => p.1 - MIN_COLUMN_WIDTH)).sum →
      (trimExcess ps adj excess).sum + excess ≤ adj.sum := by
  induction ps with
  | nil =>
    intro adj excess _ _ hex
    simp only [List.map_nil, List.sum_nil, Nat.le_zero] at hex
    simp [trimExcess, hex]
  | cons p rest ih =>
    intro adj excess hnd hprops hex
    obtain ⟨w, i⟩ := p
    have hp := hprops (w, i) (List.mem_cons_self _ _)
    obtain ⟨hi, hval, hw3⟩ := hp
    simp only [trimExcess]
    have hcr_le_w : min excess (w - MIN_COLUMN_WIDTH) ≤ adj.getD i 0 := by
      rw [hval]
      have := Nat.min_le_right excess (w - MIN_COLUMN_WIDTH)
      omega
    have hsum : (adj.set i (adj.getD i 0 - min excess (w - MIN_COLUMN_WIDTH))).sum +
        min excess (w - MIN_COLUMN_WIDTH) = adj.sum :=
      sum_set_sub adj i _ hi hcr_le_w
    have hnotin : i ∉ rest.map Prod.snd := by
      have := hnd
      simp only [List.map_cons, List.nodup_cons] at this
      exact this.1
    have hrest : ∀ p ∈ rest,
        p.2 < (adj.set i (adj.getD i 0 - min excess (w - MIN_COLUMN_WIDTH))).length ∧
        (adj.set i (adj.getD i 0 - min excess (w - MIN_COLUMN_WIDTH))).getD p.2 0 = p.1 ∧
        MIN_COLUMN_WIDTH ≤ p.1 := by
      intro q hq
      obtain ⟨hq1, hq2, hq3⟩ := hprops q (List.mem_cons_of_mem _ hq)
      refine ⟨by rw [List.length_set]; exact hq1, ?_, hq3⟩
      have hne : i ≠ q.2 := by
        intro he
        exact hnotin (he ▸ List.mem_map.mpr ⟨q, hq, rfl⟩)
      rw [List.getD_eq_getElem _ _ (by rw [List.length_set]; exact hq1),
        List.getElem_set_ne hne, ← List.getD_eq_getElem _ _ hq1]
      exact hq2
    have hex2 : excess - min excess (w - MIN_COLUMN_WIDTH) ≤
        (rest.map (fun p => p.1 - MIN_COLUMN_WIDTH)).sum := by
      simp only [List.map_cons, List.sum_cons] at hex
      have := Nat.min_le_right excess (w - MIN_COLUMN_WIDTH)
      omega
    have hnd2 : (rest.map Prod.snd).Nodup := by
      simp only [List.map_cons, List.nodup_cons] at hnd
      exact hnd.2
    have hih := ih _ _ hnd2 hrest hex2
    have hmin := Nat.min_le_left excess (w - MIN_COLUMN_WIDTH)
    omega

theorem sum_map_sub_const (l : List Nat) (m : Nat) (h : ∀ x ∈ l, m ≤ x) :
    (l.map (fun x => x - m)).sum + m * l.length = l.sum := by
  induction l with
  | nil => simp
  | cons x t ih =>
    have hx := h x (List.mem_cons_self _ _)
    have ht := ih (fun y hy => h y (List.mem_cons_of_mem _ hy))
    simp only [List.map_cons, List.sum_cons, List.length_cons]
    have : m * (t.length + 1) = m * t.length + m := by ring
    omega

theorem adjustedWidthsOf_length (W : List Nat) (avail : Nat) :
    (adjustedWidthsOf W avail).length = W.length := by
  rw [adjustedWidthsOf]
  split_ifs with h
  · rw [trimExcess_length, List.length_map]
  · rw [List.length_map]

theorem indexedWidths_map_snd (ws : List Nat) :
    (indexedWidths ws).map Prod.snd = List.range ws.length := by
  rw [indexedWidths, List.map_map]
  have : (Prod.snd ∘ fun p : Nat × Nat => (p.2, p.1)) = Prod.fst := rfl
  rw [this, List.enum_map_fst]

theorem indexedWidths_mem (ws : List Nat) (p : Nat × Nat) (hp : p ∈ indexedWidths ws) :
    p.2 < ws.length ∧ ws.getD p.2 0 = p.1 := by
  rw [indexedWidths] at hp
  rcases List.mem_map.mp hp with ⟨q, hq, hpq⟩
  have := List.mem_enum hq
  obtain ⟨h1, h2⟩ := this
  subst hpq
  exact ⟨h1, by rw [List.getD_eq_getElem _ _ h1, ← h2]⟩

theorem indexedWidths_map_sub (ws : List Nat) (m : Nat) :
    (indexedWidths ws).map (fun p => p.1 - m) = ws.map (fun x => x - m) := by
  rw [indexedWidths, List.map_map]
  have h1 : ((fun p : Nat × Nat => p.1 - m) ∘ fun p : Nat × Nat => (p.2, p.1)) =
      (fun x => x - m) ∘ Prod.snd := rfl
  rw [h1, ← List.map_map, List.enum_map_snd]

theorem adjustedWidthsOf_sum_le (W : List Nat) (avail : Nat)
    (h : MIN_COLUMN_WIDTH * W.length ≤ avail) :
    (adjustedWidthsOf W avail).sum ≤ avail := by
  rw [adjustedWidthsOf]
  split_ifs with hcase
  · set adjusted := W.map (fun w => max (w * avail / W.sum) MIN_COLUMN_WIDTH) with hadj
    have hperm : ((indexedWidths adjusted).mergeSort (fun a b => decide (b.1 ≤ a.1))).Perm
        (indexedWidths adjusted) := List.mergeSort_perm _ _
    have hmem3 : ∀ x ∈ adjusted, MIN_COLUMN_WIDTH ≤ x := by
      intro x hx
      rcases List.mem_map.mp hx with ⟨w, _, hw⟩
      rw [← hw]
      exact Nat.le_max_right _ _
    have hnd : (((indexedWidths adjusted).mergeSort
        (fun a b => decide (b.1 ≤ a.1))).map Prod.snd).Nodup := by
      have hp2 := hperm.map Prod.snd
      rw [(hp2.nodup_iff), indexedWidths_map_snd]
      exact List.nodup_range _
    have hprops : ∀ p ∈ (indexedWidths adjusted).mergeSort (fun a b => decide (b.1 ≤ a.1)),
        p.2 < adjusted.length ∧ adjusted.getD p.2 0 = p.1 ∧ MIN_COLUMN_WIDTH ≤ p.1 := by
      intro p hp
      have hp2 : p ∈ indexedWidths adjusted := hperm.mem_iff.mp hp
      obtain ⟨h1, h2⟩ := indexedWidths_mem adjusted p hp2
      refine ⟨h1, h2, ?_⟩
      rw [← h2]
      apply hmem3
      rw [List.getD_eq_getElem _ _ h1]
      exact List.getElem_mem h1
    have hsub : ((indexedWidths adjusted).map (fun p => p.1 - MIN_COLUMN_WIDTH)).sum =
        adjusted.sum - MIN_COLUMN_WIDTH * adjusted.length := by
      rw [indexedWidths_map_sub]
      have := sum_map_sub_const adjusted MIN_COLUMN_WIDTH hmem3
      omega
    have hlen : adjusted.length = W.length := List.length_map _ _
    have hex : adjusted.sum - avail ≤
        (((indexedWidths adjusted).mergeSort (fun a b => decide (b.1 ≤ a.1))).map
          (fun p => p.1 - MIN_COLUMN_WIDTH)).sum := by
      have hps := (hperm.map (fun p => p.1 - MIN_COLUMN_WIDTH)).sum_eq
      rw [hps, hsub, hlen]
      omega
    have := trimExcess_sum_le _ adjusted (adjusted.sum - avail) hnd hprops hex
    omega
  · exact Nat.le_of_not_lt hcase

/-! ### Lemmas about cell truncation -/

theorem truncateCells_length (row : Row) : ∀ ws : List Nat,
    (truncateCells row ws).length = row.length := by
  induction row with
  | nil => intro ws; rfl
  | cons c cs ih =>
    intro ws
    cases ws with
    | nil => simp [truncateCells, ih]
    | cons w t => simp [truncateCells, ih]

theorem truncateCells_cellAt_le (row : Row) : ∀ (ws : List Nat) (j : Nat),
    j < ws.length → (cellAt (truncateCells row ws) j).length ≤ ws.getD j 0 := by
  induction row with
  | nil =>
    intro ws j _
    simp [truncateCells, cellAt]
  | cons c cs ih =>
    intro ws j hj
    cases ws with
    | nil => simp at hj
    | cons w t =>
      cases j with
      | zero =>
        simp only [truncateCells, cellAt, List.getD_cons_zero]
        split_ifs with hlen
        · simp [List.length_take]
        · omega
      | succ n =>
        simp only [truncateCells, cellAt, List.getD_cons_succ]
        exact ih t n (by simpa using hj)

end Tabled

namespace Tabled

/-- Counterexample to C1: on this two-column grid with a ten-wide key column
and budget ten, the split path emits a first table whose lines are fourteen
characters long, exceeding maxWidth. -/
theorem c1_counterexample :
    "| aaaaaaaaaa |".data ∈
      (format [[List.replicate 10 'a', ['b']], [List.replicate 10 'c', ['d']]] 10).splitOn
        '\n' ∧
    10 < ("| aaaaaaaaaa |".data).length := by
  refine ⟨by decide, by decide⟩

/-- Amended C1: every line emitted by the single-table path and by the
squeeze path fits within maxWidth; split-path tables can exceed maxWidth
when one column is too wide for the budget. -/
theorem c1_width_within_budget (data : Grid) (mw : Nat)
    (h : calculateTableWidth (filteredWidths data) ≤ mw ∨
      (filteredNumColsOf data ≤ MAX_COLUMNS_BEFORE_SPLIT ∧
       2 * MIN_COLUMN_WIDTH * (filteredWidths data).length ≤ (filteredWidths data).sum ∧
       filteredNumColsOf data * MIN_COLUMN_WIDTH < mw - (3 * filteredNumColsOf data + 1))) :
    ∃ lns, format data mw = List.intercalate ['\n'] lns ∧ ∀ l ∈ lns, l.length ≤ mw := by
  by_cases hd : data = []
  · refine ⟨[], ?_, by simp⟩
    subst hd
    rfl
  by_cases hid : identifyNonEmptyColumns (normalizeGrid data) = []
  · refine ⟨[], ?_, by simp⟩
    rw [format, if_neg (by simpa using hd), if_pos (by simp [hid])]
    rfl
  have hn1 : 1 ≤ filteredNumColsOf data := by
    rw [filteredNumColsOf_eq data hd]
    exact List.length_pos.mpr hid
  have hWlen : (filteredWidths data).length = filteredNumColsOf data := by
    rw [filteredWidths_length data hd, filteredNumColsOf_eq data hd]
  have hFrows : ∀ r ∈ filteredGrid data, r.length = filteredNumColsOf data := by
    intro r hr
    rw [filteredGrid_row_length data r hr, filteredNumColsOf_eq data hd]
  have hFne : filteredGrid data ≠ [] := filteredGrid_ne_nil data hd
  have hrange_ne : List.range (filteredNumColsOf data) ≠ [] := by
    intro he
    have := congrArg List.length he
    simp at this
    omega
  by_cases hfit : calculateTableWidth (filteredWidths data) ≤ mw
  · have hformat : format data mw = formatSingleTable (filteredGrid data)
        (List.range (filteredNumColsOf data)) := by
      simp only [filteredWidths, filteredGrid, filteredNumColsOf] at hfit ⊢
      simp only [format]
      rw [if_neg (by simpa using hd), if_neg (by simpa using hid), if_pos hfit]
    refine ⟨formatSingleTableLines (filteredGrid data) (List.range (filteredNumColsOf data)),
      by rw [hformat, formatSingleTable], ?_⟩
    intro l hl
    have hlen := formatSingleTableLines_length_eq (filteredGrid data)
      (List.range (filteredNumColsOf data)) hFne hrange_ne l hl
    rw [subGrid_range (filteredGrid data) (filteredNumColsOf data) hFrows] at hlen
    rw [hlen]
    rw [calculateTableWidth] at hfit
    have hsums : (calculateColumnWidths (filteredGrid data)).sum = (filteredWidths data).sum :=
      rfl
    rw [hsums]
    simp only [List.length_range]
    rw [← hWlen]
    exact hfit
  · rcases h with h | ⟨h1, h2, h4⟩
    · exact absurd h hfit
    have hsq := format_squeeze_eq data mw h1 h2 (Nat.lt_of_not_le hfit) h4
    refine ⟨formatSingleTableLines
        ((filteredGrid data).map (fun row => truncateCells row
          (adjustedWidthsOf (filteredWidths data) (mw - (3 * filteredNumColsOf data + 1)))))
        (List.range (filteredNumColsOf data)),
      by rw [hsq, formatSingleTable], ?_⟩
    intro l hl
    have hTne : (filteredGrid data).map (fun row => truncateCells row
        (adjustedWidthsOf (filteredWidths data) (mw - (3 * filteredNumColsOf data + 1)))) ≠
          [] := by
      simpa using hFne
    have hTrows : ∀ r ∈ (filteredGrid data).map (fun row => truncateCells row
        (adjustedWidthsOf (filteredWidths data) (mw - (3 * filteredNumColsOf data + 1)))),
        r.length = filteredNumColsOf data := by
      intro r hr
      rcases List.mem_map.mp hr with ⟨row, hrow, hreq⟩
      rw [← hreq, truncateCells_length]
      exact hFrows row hrow
    have hlen := formatSingleTableLines_length_eq _ _ hTne hrange_ne l hl
    rw [subGrid_range _ (filteredNumColsOf data) hTrows] at hlen
    have hadjlen : (adjustedWidthsOf (filteredWidths data)
        (mw - (3 * filteredNumColsOf data + 1))).length = filteredNumColsOf data := by
      rw [adjustedWidthsOf_length, hWlen]
    have hmaxT : maxRowLen ((filteredGrid data).map (fun row => truncateCells row
        (adjustedWidthsOf (filteredWidths data) (mw - (3 * filteredNumColsOf data + 1))))) =
        filteredNumColsOf data :=
      maxRowLen_eq _ _ hTne hTrows
    have hsum : (calculateColumnWidths ((filteredGrid data).map (fun row => truncateCells row
        (adjustedWidthsOf (filteredWidths data)
          (mw - (3 * filteredNumColsOf data + 1)))))).sum ≤
        (adjustedWidthsOf (filteredWidths data) (mw - (3 * filteredNumColsOf data + 1))).sum := by
      rw [calculateColumnWidths, hmaxT]
      have hpt : ∀ j ∈ List.range (filteredNumColsOf data),
          colWidthAt ((filteredGrid data).map (fun row => truncateCells row
            (adjustedWidthsOf (filteredWidths data)
              (mw - (3 * filteredNumColsOf data + 1))))) j ≤
          (adjustedWidthsOf (filteredWidths data)
            (mw - (3 * filteredNumColsOf data + 1))).getD j 0 := by
        intro j hj
        apply foldl_max_le _ _ 0 _ (Nat.zero_le _)
        intro r hr
        rcases List.mem_map.mp hr with ⟨row, _, hreq⟩
        rw [← hreq]
        apply truncateCells_cellAt_le row _ j
        rw [hadjlen]
        exact List.mem_range.mp hj
      calc ((List.range (filteredNumColsOf data)).map (colWidthAt _)).sum
          ≤ ((List.range (filteredNumColsOf data)).map (fun j =>
              (adjustedWidthsOf (filteredWidths data)
                (mw - (3 * filteredNumColsOf data + 1))).getD j 0)).sum :=
            List.sum_le_sum hpt
        _ = (adjustedWidthsOf (filteredWidths data)
              (mw - (3 * filteredNumColsOf data + 1))).sum := by
            have h5 := map_getD_range (adjustedWidthsOf (filteredWidths data)
              (mw - (3 * filteredNumColsOf data + 1)))
            rw [hadjlen] at h5
            rw [h5]
    have hadsum : (adjustedWidthsOf (filteredWidths data)
        (mw - (3 * filteredNumColsOf data + 1))).sum ≤
          mw - (3 * filteredNumColsOf data + 1) := by
      apply adjustedWidthsOf_sum_le
      rw [hWlen]
      simp only [MIN_COLUMN_WIDTH] at h4 ⊢
      omega
    rw [hlen]
    simp only [List.length_range]
    simp only [MIN_COLUMN_WIDTH] at h4
    omega

/-- Witness for the amended C1 at a fitting two-row grid. -/
theorem c1_witness :
    ∃ lns, format [[['a', 'b']], [['c']]] 100 = List.intercalate ['\n'] lns ∧
      ∀ l ∈ lns, l.length ≤ 100 :=
  c1_width_within_budget [[['a', 'b']], [['c']]] 100 (Or.inl (by decide))

end Tabled

namespace Tabled

/-! ### Lemmas about the characters of rendered lines -/

theorem formatRow_eq_cons (r : Row) (ws : List Nat) :
    formatRow r ws = '|' :: (List.intercalate ['|'] (formatCells r ws) ++ ['|']) := rfl

theorem formatSeparator_eq_cons (ws : List Nat) :
    formatSeparator ws =
      '|' :: (List.intercalate ['|'] (ws.map (fun w => List.replicate (w + 2) '-')) ++ ['|']) :=
  rfl

theorem formatRow_head (r : Row) (ws : List Nat) : (formatRow r ws).head? = some '|' := rfl

theorem formatRow_getLast (r : Row) (ws : List Nat) :
    (formatRow r ws).getLast? = some '|' := by
  rw [formatRow]
  exact List.getLast?_concat _

theorem formatSeparator_head (ws : List Nat) : (formatSeparator ws).head? = some '|' := rfl

theorem formatSeparator_getLast (ws : List Nat) :
    (formatSeparator ws).getLast? = some '|' := by
  rw [formatSeparator]
  exact List.getLast?_concat _

theorem mem_formatCells (r : Row) : ∀ (ws : List Nat) (p : Str),
    p ∈ formatCells r ws → ∃ cell ∈ r, ∃ w, p = padCell cell w := by
  induction r with
  | nil => intro ws p hp; simp [formatCells] at hp
  | cons c cs ih =>
    intro ws p hp
    cases ws with
    | nil =>
      rcases List.mem_cons.mp hp with h | h
      · exact ⟨c, by simp, 0, h⟩
      · rcases ih [] p h with ⟨cell, hcell, w, hw⟩
        exact ⟨cell, by simp [hcell], w, hw⟩
    | cons w t =>
      rcases List.mem_cons.mp hp with h | h
      · exact ⟨c, by simp, w, h⟩
      · rcases ih t p h with ⟨cell, hcell, w2, hw⟩
        exact ⟨cell, by simp [hcell], w2, hw⟩

theorem mem_padCell (cell : Str) (w : Nat) (c : Char) (hc : c ∈ padCell cell w) :
    c = ' ' ∨ c ∈ cell := by
  rw [padCell] at hc
  simp at hc
  rcases hc with h | h | ⟨_, h⟩ | h
  · exact Or.inl h
  · exact Or.inr h
  · exact Or.inl h
  · exact Or.inl h

theorem formatRow_chars (r : Row) (ws : List Nat) (c : Char) (hc : c ∈ formatRow r ws) :
    c = '|' ∨ c = ' ' ∨ ∃ cell ∈ r, c ∈ cell := by
  rw [formatRow_eq_cons] at hc
  rcases List.mem_cons.mp hc with h | h
  · exact Or.inl h
  rcases List.mem_append.mp h with h2 | h2
  · rcases mem_intercalate '|' _ c h2 with h3 | ⟨p, hp, hcp⟩
    · exact Or.inl h3
    · rcases mem_formatCells r ws p hp with ⟨cell, hcell, w, hw⟩
      rcases mem_padCell cell w c (hw ▸ hcp) with h4 | h4
      · exact Or.inr (Or.inl h4)
      · exact Or.inr (Or.inr ⟨cell, hcell, h4⟩)
  · exact Or.inl (List.mem_singleton.mp h2)

theorem formatSeparator_chars (ws : List Nat) (c : Char) (hc : c ∈ formatSeparator ws) :
    c = '|' ∨ c = '-' := by
  rw [formatSeparator_eq_cons] at hc
  rcases List.mem_cons.mp hc with h | h
  · exact Or.inl h
  rcases List.mem_append.mp h with h2 | h2
  · rcases mem_intercalate '|' _ c h2 with h3 | ⟨p, hp, hcp⟩
    · exact Or.inl h3
    · rcases List.mem_map.mp hp with ⟨w, _, hw⟩
      exact Or.inr (List.eq_of_mem_replicate (hw ▸ hcp))
  · exact Or.inl (List.mem_singleton.mp h2)

theorem formatCells_mem_of_mem (r : Row) : ∀ (ws : List Nat) (cell : Str), cell ∈ r →
    ∃ p ∈ formatCells r ws, ∀ x ∈ cell, x ∈ p := by
  induction r with
  | nil => intro ws cell h; simp at h
  | cons c cs ih =>
    intro ws cell h
    rcases List.mem_cons.mp h with h2 | h2
    · subst h2
      cases ws with
      | nil =>
        refine ⟨padCell cell 0, by simp [formatCells], ?_⟩
        intro x hx
        simp [padCell]
        right
        left
        exact hx
      | cons w t =>
        refine ⟨padCell cell w, by simp [formatCells], ?_⟩
        intro x hx
        simp [padCell]
        right
        left
        exact hx
    · cases ws with
      | nil =>
        rcases ih [] cell h2 with ⟨p, hp, hps⟩
        exact ⟨p, by simp [formatCells, hp], hps⟩
      | cons w t =>
        rcases ih t cell h2 with ⟨p, hp, hps⟩
        exact ⟨p, by simp [formatCells, hp], hps⟩

end Tabled

namespace Tabled

/-! ### Line classification and cell recovery for the markdown round trip -/

theorem markdownTest_of_shape (l : Str) (rest : Str) (hl : l = '|' :: rest)
    (hne : rest ≠ []) (hlast : rest.getLast? = some '|')
    (hdot : ∀ c ∈ rest, dotChar c = true) (htr : trim l = l) :
    markdownTest l = true := by
  rw [markdownTest, htr, hl]
  simp only
  rw [Bool.and_eq_true, Bool.and_eq_true, Bool.and_eq_true]
  refine ⟨⟨⟨by simp, by simpa using hne⟩, by simp [hlast]⟩, ?_⟩
  rw [List.all_eq_true]
  intro c hc
  exact hdot c ((List.dropLast_sublist _).subset hc)

theorem mdSeparatorTest_formatSeparator (ws : List Nat) (hne : ws ≠ []) :
    mdSeparatorTest (formatSeparator ws) = true := by
  obtain ⟨w0, t, hws⟩ : ∃ w0 t, ws = w0 :: t := by
    cases ws with
    | nil => exact absurd rfl hne
    | cons a b => exact ⟨a, b, rfl⟩
  have hM : '-' ∈ List.intercalate ['|'] (ws.map (fun w => List.replicate (w + 2) '-')) := by
    apply mem_intercalate_of_mem _ _ (List.replicate (w0 + 2) '-')
    · rw [hws]
      simp
    · exact List.mem_replicate.mpr ⟨by omega, rfl⟩
  have hMne : List.intercalate ['|'] (ws.map (fun w => List.replicate (w + 2) '-')) ≠ [] :=
    List.ne_nil_of_mem hM
  rw [formatSeparator_eq_cons]
  simp only [mdSeparatorTest]
  have h1 : decide (2 ≤ (List.intercalate ['|'] (ws.map (fun w => List.replicate (w + 2) '-'))
      ++ ['|']).length) = true := by
    rw [decide_eq_true_iff, List.length_append]
    rcases List.exists_cons_of_ne_nil hMne with ⟨m, M2, hM2⟩
    rw [hM2]
    simp
  have h3 : ((List.intercalate ['|'] (ws.map (fun w => List.replicate (w + 2) '-'))
      ++ ['|']).dropLast.all (fun d => isWS d || d == '-' || d == '|')) = true := by
    rw [List.dropLast_concat, List.all_eq_true]
    intro c hc
    rcases mem_intercalate '|' _ c hc with h | ⟨p, hp, hcp⟩
    · simp [h]
    · rcases List.mem_map.mp hp with ⟨w, _, hw⟩
      have : c = '-' := List.eq_of_mem_replicate (hw ▸ hcp)
      simp [this]
  have h4 : (('|' :: (List.intercalate ['|'] (ws.map (fun w => List.replicate (w + 2) '-'))
      ++ ['|'])).any (fun c => c == '-')) = true := by
    rw [List.any_eq_true]
    exact ⟨'-', List.mem_cons_of_mem _ (List.mem_append.mpr (Or.inl hM)), by simp⟩
  simp [h4, List.getLast?_concat]
  refine ⟨?_, ?_⟩
  · rcases List.exists_cons_of_ne_nil hMne with ⟨m, M2, hM2⟩
    rw [hM2]
    simp
  · intro x hx
    rcases mem_intercalate '|' _ x hx with h | ⟨p, hp, hcp⟩
    · right
      exact h
    · rcases List.mem_map.mp hp with ⟨w, _, hw⟩
      left
      right
      exact List.eq_of_mem_replicate (hw ▸ hcp)

theorem mdSeparatorTest_formatRow_false (r : Row) (ws : List Nat) (cell : Str) (ch : Char)
    (hcell : cell ∈ r) (hch : ch ∈ cell) (hws : isWS ch = false) (hdash : ch ≠ '-')
    (hpipe : ch ≠ '|') :
    mdSeparatorTest (formatRow r ws) = false := by
  rcases formatCells_mem_of_mem r ws cell hcell with ⟨p, hp, hps⟩
  have hchM : ch ∈ List.intercalate ['|'] (formatCells r ws) :=
    mem_intercalate_of_mem _ _ p ch hp (hps ch hch)
  rw [formatRow_eq_cons]
  simp only [mdSeparatorTest]
  have hall : ((List.intercalate ['|'] (formatCells r ws) ++ ['|']).dropLast.all
      (fun d => isWS d || d == '-' || d == '|')) = false := by
    rw [List.dropLast_concat]
    cases hx : (List.intercalate ['|'] (formatCells r ws)).all
        (fun d => isWS d || d == '-' || d == '|') with
    | false => rfl
    | true =>
      exfalso
      have h2 := List.all_eq_true.mp hx ch hchM
      simp [hws, hdash, hpipe] at h2
  simp [hall]
  intro _ hclass
  exact absurd (hclass ch hchM) (by simp [hws, hdash, hpipe])

theorem splitCells_formatRow (r : Row) (ws : List Nat) (hr : r ≠ [])
    (hnp : ∀ cell ∈ r, '|' ∉ cell) :
    splitCells (formatRow r ws) = formatCells r ws := by
  have hcne : formatCells r ws ≠ [] := by
    intro h
    have := formatCells_length r ws
    rw [h] at this
    exact hr (List.eq_nil_of_length_eq_zero this.symm)
  have hshape : formatRow r ws =
      List.intercalate ['|'] ([] :: (formatCells r ws ++ [[]])) := by
    rw [intercalate_cons₂ _ _ _ (by simp), intercalate_concat _ _ _ hcne,
      formatRow_eq_cons]
    simp
  have hnomem : ∀ piece ∈ ([] :: (formatCells r ws ++ [[]]) : List Str), '|' ∉ piece := by
    intro piece hpiece
    rcases List.mem_cons.mp hpiece with h | h
    · rw [h]
      simp
    rcases List.mem_append.mp h with h2 | h2
    · rcases mem_formatCells r ws piece h2 with ⟨cell, hcell, w, hw⟩
      intro hmem
      rcases mem_padCell cell w '|' (hw ▸ hmem) with h3 | h3
      · exact absurd h3 (by decide)
      · exact hnp cell hcell h3
    · rw [List.mem_singleton.mp h2]
      simp
  have hsplit : (formatRow r ws).splitOn '|' = [] :: (formatCells r ws ++ [[]]) := by
    rw [hshape]
    exact List.splitOn_intercalate _ '|' hnomem (by simp)
  rw [splitCells, hsplit]
  simp only [List.drop_one, List.tail_cons]
  exact List.dropLast_concat

theorem map_trim_formatCells (r : Row) : ∀ (ws : List Nat),
    (∀ cell ∈ r, trim cell = cell) → (formatCells r ws).map trim = r := by
  induction r with
  | nil => intro ws _; rfl
  | cons c cs ih =>
    intro ws h
    have hc := h c (List.mem_cons_self _ _)
    have ht := fun cell hcell => h cell (List.mem_cons_of_mem _ hcell)
    cases ws with
    | nil =>
      simp only [formatCells, List.map_cons]
      rw [trim_pad c 0 hc, ih [] ht]
    | cons w t =>
      simp only [formatCells, List.map_cons]
      rw [trim_pad c w hc, ih t ht]

theorem filterMap_eq_map_of_some {α β : Type} (f : α → Option β) (g : α → β) :
    ∀ ls : List α, (∀ l ∈ ls, f l = some (g l)) → ls.filterMap f = ls.map g := by
  intro ls
  induction ls with
  | nil => intro _; rfl
  | cons x t ih =>
    intro h
    rw [List.filterMap_cons, h x (List.mem_cons_self _ _), List.map_cons,
      ih (fun l hl => h l (List.mem_cons_of_mem _ hl))]

theorem getLast?_intercalate_all (s : Str) (L : List Str) (hL : L ≠ [])
    (h : ∀ l ∈ L, l.getLast? = some '|') :
    (List.intercalate s L).getLast? = some '|' := by
  induction L with
  | nil => exact absurd rfl hL
  | cons x t ih =>
    cases t with
    | nil => rw [intercalate_single]; exact h x (by simp)
    | cons y t2 =>
      rw [intercalate_cons₂ _ _ _ (by simp), List.append_assoc, List.getLast?_append]
      have := ih (by simp) (fun l hl => h l (List.mem_cons_of_mem _ hl))
      rw [List.getLast?_append, this]
      rfl

end Tabled

namespace Tabled

theorem format_of_fitting (G : Grid) (n mw : Nat) (hG : G ≠ []) (hn : 1 ≤ n)
    (hrect : ∀ r ∈ G, r.length = n)
    (hnonvac : ∀ j, j < n → ∃ r ∈ G, trim (cellAt r j) ≠ [])
    (hwidth : calculateTableWidth (calculateColumnWidths G) ≤ mw) :
    format G mw = formatSingleTable G (List.range n) := by
  have hmax : maxRowLen G = n := maxRowLen_eq G n hG hrect
  have hnorm : normalizeGrid G = G := by
    rw [normalizeGrid]
    conv_rhs => rw [← List.map_id G]
    apply List.map_congr_left
    intro r hr
    simp only [hmax, hrect r hr]
    simp
  have hid : identifyNonEmptyColumns G = List.range n := by
    rw [identifyNonEmptyColumns, hmax, List.filter_eq_self]
    intro j hj
    rw [List.any_eq_true]
    rcases hnonvac j (List.mem_range.mp hj) with ⟨r, hr, hcell⟩
    exact ⟨r, hr, by simpa using hcell⟩
  have hsub : subGrid G (List.range n) = G := subGrid_range G n hrect
  have hrangene : ¬(List.range n).isEmpty = true := by
    simp only [List.isEmpty_iff]
    intro he
    have := congrArg List.length he
    simp at this
    omega
  have hheadlen : (G.headD []).length = n := by
    cases G with
    | nil => exact absurd rfl hG
    | cons r0 rs =>
      rw [List.headD_cons]
      exact hrect r0 (List.mem_cons_self _ _)
  simp only [format]
  rw [hnorm, hid, hsub, if_neg (by simpa using hG), if_neg hrangene, hheadlen,
    if_pos hwidth]

theorem formatSingleTableLines_rect (r0 : Row) (rs : List Row) (n : Nat)
    (hrect : ∀ r ∈ r0 :: rs, r.length = n) :
    formatSingleTableLines (r0 :: rs) (List.range n) =
      formatRow r0 (calculateColumnWidths (r0 :: rs)) ::
      formatSeparator (calculateColumnWidths (r0 :: rs)) ::
        rs.map (fun r => formatRow r (calculateColumnWidths (r0 :: rs))) := by
  rw [formatSingleTableLines]
  simp only [subGrid_range (r0 :: rs) n hrect]

end Tabled

namespace Tabled

theorem parse_rendered_lines (r0 : Row) (rs : List Row) (W : List Nat) (hWne : W ≠ [])
    (hcells : ∀ r ∈ r0 :: rs, ∀ c ∈ r, trim c = c ∧ '|' ∉ c ∧ '\n' ∉ c ∧ '\r' ∉ c)
    (hrowsne : ∀ r ∈ r0 :: rs, r ≠ [])
    (hsignal : ∀ r ∈ r0 :: rs, ∃ c ∈ r, ∃ ch ∈ c, isWS ch = false ∧ ch ≠ '-') :
    parse (List.intercalate ['\n']
      (formatRow r0 W :: formatSeparator W :: rs.map (fun r => formatRow r W))) = r0 :: rs := by
  set L := formatRow r0 W :: formatSeparator W :: rs.map (fun r => formatRow r W) with hLdef
  have hrowdot : ∀ r ∈ r0 :: rs, ∀ c ∈ formatRow r W, dotChar c = true := by
    intro r hr c hc
    rcases formatRow_chars r W c hc with h | h | ⟨cell, hcell, hcc⟩
    · rw [h]; rfl
    · rw [h]; rfl
    · obtain ⟨_, _, hnl, hcr⟩ := hcells r hr cell hcell
      have h1 : c ≠ '\n' := fun he => hnl (he ▸ hcc)
      have h2 : c ≠ '\r' := fun he => hcr (he ▸ hcc)
      simp [dotChar, h1, h2]
  have hsepdot : ∀ c ∈ formatSeparator W, dotChar c = true := by
    intro c hc
    rcases formatSeparator_chars W c hc with h | h <;> (rw [h]; rfl)
  have hLcases : ∀ l ∈ L, l = formatSeparator W ∨ ∃ r ∈ r0 :: rs, l = formatRow r W := by
    intro l hl
    rw [hLdef] at hl
    rcases List.mem_cons.mp hl with h | h
    · exact Or.inr ⟨r0, List.mem_cons_self _ _, h⟩
    rcases List.mem_cons.mp h with h2 | h2
    · exact Or.inl h2
    · rcases List.mem_map.mp h2 with ⟨r, hrm, hreq⟩
      exact Or.inr ⟨r, List.mem_cons_of_mem _ hrm, hreq.symm⟩
  have hLdot : ∀ l ∈ L, ∀ c ∈ l, dotChar c = true := by
    intro l hl
    rcases hLcases l hl with h | ⟨r, hr, h⟩
    · exact h ▸ hsepdot
    · exact h ▸ hrowdot r hr
  have hLhead : ∀ l ∈ L, l.head? = some '|' := by
    intro l hl
    rcases hLcases l hl with h | ⟨r, _, h⟩
    · exact h ▸ formatSeparator_head W
    · exact h ▸ formatRow_head r W
  have hLlast : ∀ l ∈ L, l.getLast? = some '|' := by
    intro l hl
    rcases hLcases l hl with h | ⟨r, _, h⟩
    · exact h ▸ formatSeparator_getLast W
    · exact h ▸ formatRow_getLast r W
  have hLne : ∀ l ∈ L, l ≠ [] := by
    intro l hl he
    have := hLhead l hl
    rw [he] at this
    simp at this
  have hLtrim : ∀ l ∈ L, trim l = l := fun l hl =>
    trim_eq_self l '|' '|' (hLhead l hl) (by decide) (hLlast l hl) (by decide)
  have hLnonl : ∀ l ∈ L, '\n' ∉ l := by
    intro l hl hm
    have := hLdot l hl '\n' hm
    simp [dotChar] at this
  have hLne2 : L ≠ [] := by rw [hLdef]; simp
  have hheadout : (List.intercalate ['\n'] L).head? = some '|' := by
    rw [hLdef, head?_intercalate _ _ _ (by rw [formatRow_eq_cons]; simp)]
    exact formatRow_head r0 W
  have hlastout : (List.intercalate ['\n'] L).getLast? = some '|' :=
    getLast?_intercalate_all ['\n'] L hLne2 hLlast
  have htrimout : trim (List.intercalate ['\n'] L) = List.intercalate ['\n'] L :=
    trim_eq_self _ '|' '|' hheadout (by decide) hlastout (by decide)
  have hsplit : (List.intercalate ['\n'] L).splitOn '\n' = L :=
    List.splitOn_intercalate L '\n' hLnonl hLne2
  have hmaptrim : L.map trim = L := by
    conv_rhs => rw [← List.map_id L]
    exact List.map_congr_left (fun l hl => hLtrim l hl)
  have hfilter1 : L.filter (fun l => l.head? == some '|' && l.getLast? == some '|') = L := by
    rw [List.filter_eq_self]
    intro l hl
    simp [hLhead l hl, hLlast l hl]
  have hmdall : ∀ l ∈ L, markdownTest l = true := by
    intro l hl
    rcases hLcases l hl with h | ⟨r, _, h⟩
    · subst h
      apply markdownTest_of_shape _ (List.intercalate ['|']
          (W.map (fun w => List.replicate (w + 2) '-')) ++ ['|'])
        (formatSeparator_eq_cons W) (by simp) (List.getLast?_concat _) ?_ (hLtrim _ hl)
      intro c hc
      exact hLdot _ hl c (formatSeparator_eq_cons W ▸ List.mem_cons_of_mem _ hc)
    · subst h
      apply markdownTest_of_shape _ (List.intercalate ['|'] (formatCells r W) ++ ['|'])
        (formatRow_eq_cons r W) (by simp) (List.getLast?_concat _) ?_ (hLtrim _ hl)
      intro c hc
      exact hLdot _ hl c (formatRow_eq_cons r W ▸ List.mem_cons_of_mem _ hc)
  have hnb : nonBlankLines (List.intercalate ['\n'] L) = L := by
    rw [nonBlankLines, linesOf, htrimout, hsplit, List.filter_eq_self]
    intro l hl
    rw [hLtrim l hl]
    simpa using hLne l hl
  have hdetect : detectFormat (List.intercalate ['\n'] L) = .markdown := by
    simp only [detectFormat]
    rw [hnb, if_neg, if_pos]
    · have hfm : L.filter markdownTest = L := by
        rw [List.filter_eq_self]
        exact hmdall
      rw [hfm]
      have : 1 ≤ L.length := by
        rw [hLdef]
        simp
      omega
    · have : 1 ≤ L.length := by
        rw [hLdef]
        simp
      omega
  have hrowrec : ∀ r ∈ r0 :: rs, (splitCells (formatRow r W)).map trim = r := by
    intro r hr
    rw [splitCells_formatRow r W (hrowsne r hr)
        (fun cell hcell => (hcells r hr cell hcell).2.1),
      map_trim_formatCells r W (fun cell hcell => (hcells r hr cell hcell).1)]
  have hts : mdSeparatorTest (formatSeparator W) = true :=
    mdSeparatorTest_formatSeparator W hWne
  have htr : ∀ r ∈ r0 :: rs, mdSeparatorTest (formatRow r W) = false := by
    intro r hr
    rcases hsignal r hr with ⟨c, hc, ch, hch, hw, hd⟩
    have hp : ch ≠ '|' := fun he => (hcells r hr c hc).2.1 (he ▸ hch)
    exact mdSeparatorTest_formatRow_false r W c ch hc hch hw hd hp
  have hfilter2 : L.filter (fun l => !mdSeparatorTest l) =
      formatRow r0 W :: rs.map (fun r => formatRow r W) := by
    rw [hLdef, List.filter_cons, List.filter_cons,
      if_pos (by simp [htr r0 (List.mem_cons_self _ _)]), if_neg (by simp [hts])]
    congr 1
    rw [List.filter_map]
    have : rs.filter ((fun l => !mdSeparatorTest l) ∘ (fun r => formatRow r W)) = rs := by
      rw [List.filter_eq_self]
      intro r hr
      simp only [Function.comp]
      simp [htr r (List.mem_cons_of_mem _ hr)]
    rw [this]
  have hparseMd : parseMarkdown (List.intercalate ['\n'] L) = r0 :: rs := by
    simp only [parseMarkdown]
    rw [htrimout, hsplit, hmaptrim, hfilter1, hfilter2]
    have hrecf : ∀ r ∈ r0 :: rs,
        (if ((splitCells (formatRow r W)).map trim).isEmpty = true then none
         else some ((splitCells (formatRow r W)).map trim)) = some r := by
      intro r hr
      rw [hrowrec r hr]
      rw [if_neg (by simpa using hrowsne r hr)]
    rw [List.filterMap_cons, hrecf r0 (List.mem_cons_self _ _)]
    show r0 :: List.filterMap
        (fun l => if ((splitCells l).map trim).isEmpty = true then none
          else some ((splitCells l).map trim)) (rs.map (fun r => formatRow r W)) = r0 :: rs
    congr 1
    rw [List.filterMap_map]
    have : rs.filterMap ((fun (l : Str) =>
        if ((splitCells l).map trim).isEmpty = true then none
        else some ((splitCells l).map trim)) ∘ (fun r => formatRow r W)) = rs.map id := by
      apply filterMap_eq_map_of_some
      intro r hr
      simp only [Function.comp, id]
      exact hrecf r (List.mem_cons_of_mem _ hr)
    rw [this, List.map_id]
  have htne : ¬(trim (List.intercalate ['\n'] L)).isEmpty = true := by
    rw [htrimout]
    simp only [List.isEmpty_iff]
    intro he
    rw [he] at hheadout
    simp at hheadout
  rw [parse, if_neg htne, hdetect]
  exact hparseMd

end Tabled

namespace Tabled

/-- Counterexample to C4: the one-column grid with cell values hyphen and x
is rectangular, has no empty column and fits the budget, yet the rendering
of its first row looks like a markdown separator row, so the markdown
parser drops it and the round trip loses the hyphen cell. -/
theorem c4_counterexample :
    parse (format [[['-']], [['x']]] 100) = [[['x']]] ∧
    format (parse (format [[['-']], [['x']]] 100)) 100 ≠ format [[['-']], [['x']]] 100 := by
  refine ⟨by decide, by decide⟩

/-- Amended C4: markdown parse/format is idempotent on already-formatted
tables for rectangular grids with no vacuous column whose cells are trimmed
and free of pipe, newline and carriage-return characters, provided every
row has at least one non-whitespace character other than a hyphen (so no
row renders like a separator row). -/
theorem c4_roundtrip_amended (G : Grid) (n mw : Nat) (hG : G ≠ []) (hn : 1 ≤ n)
    (hrect : ∀ r ∈ G, r.length = n)
    (hcells : ∀ r ∈ G, ∀ c ∈ r, trim c = c ∧ '|' ∉ c ∧ '\n' ∉ c ∧ '\r' ∉ c)
    (hnonvac : ∀ j, j < n → ∃ r ∈ G, trim (cellAt r j) ≠ [])
    (hsignal : ∀ r ∈ G, ∃ c ∈ r, ∃ ch ∈ c, isWS ch = false ∧ ch ≠ '-')
    (hwidth : calculateTableWidth (calculateColumnWidths G) ≤ mw) :
    parse (format G mw) = G ∧ format (parse (format G mw)) mw = format G mw := by
  obtain ⟨r0, rs, hG0⟩ : ∃ r0 rs, G = r0 :: rs := by
    cases G with
    | nil => exact absurd rfl hG
    | cons a b => exact ⟨a, b, rfl⟩
  subst hG0
  have hfmt : format (r0 :: rs) mw = formatSingleTable (r0 :: rs) (List.range n) :=
    format_of_fitting _ n mw hG hn hrect hnonvac hwidth
  have hout : formatSingleTable (r0 :: rs) (List.range n) =
      List.intercalate ['\n'] (formatRow r0 (calculateColumnWidths (r0 :: rs)) ::
        formatSeparator (calculateColumnWidths (r0 :: rs)) ::
        rs.map (fun r => formatRow r (calculateColumnWidths (r0 :: rs)))) := by
    rw [formatSingleTable, formatSingleTableLines_rect r0 rs n hrect]
  have hWne : calculateColumnWidths (r0 :: rs) ≠ [] := by
    intro he
    have := calculateColumnWidths_length (r0 :: rs)
    rw [he, maxRowLen_eq _ n hG hrect] at this
    simp at this
    omega
  have hrowsne : ∀ r ∈ r0 :: rs, r ≠ [] := by
    intro r hr he
    have := hrect r hr
    rw [he] at this
    simp at this
    omega
  have hparse : parse (format (r0 :: rs) mw) = r0 :: rs := by
    rw [hfmt, hout]
    exact parse_rendered_lines r0 rs _ hWne hcells hrowsne hsignal
  exact ⟨hparse, by rw [hparse]⟩

/-- Witness for the amended C4 on the Name/Age grid of the specification. -/
theorem c4_witness :
    parse (format [["Name".data, "Age".data], ["John Smith".data, "32".data]] 100) =
      [["Name".data, "Age".data], ["John Smith".data, "32".data]] ∧
    format (parse
        (format [["Name".data, "Age".data], ["John Smith".data, "32".data]] 100)) 100 =
      format [["Name".data, "Age".data], ["John Smith".data, "32".data]] 100 :=
  c4_roundtrip_amended [["Name".data, "Age".data], ["John Smith".data, "32".data]] 2 100
    (by decide) (by decide) (by decide) (by decide) (by decide) (by decide) (by decide)

end Tabled
